import Mathlib

/-!
Verification of the n8n-copilot chat feature: a backend SSE relay
(`CopilotController.chatWithCopilot`), a client stream consumer
(`AiChatService.streamChatResponse`), an incremental fenced-block parser
(`parseMessageContent` in ChatDiscussion.vue) and the workflow-extraction
step (`extractWorkflowJson` in ChatSidebar.vue).

Text is modelled as `List Char` (named `Txt`).  All definitions are
executable structural recursions so that concrete runs reduce by `decide`.
-/

set_option maxRecDepth 10000

abbrev Txt := List Char

/-- Characters treated as whitespace by the JavaScript regex class `\s`
and by `String.prototype.trim`: ASCII whitespace, NBSP, Ogham space mark,
the U+2000 to U+200A spaces, the line and paragraph separators, the
narrow/medium/ideographic spaces and the BOM. -/
def jsWs (c : Char) : Bool :=
  c = ' ' || c = '\t' || c = '\n' || c = '\r' || c = '\x0b' || c = '\x0c' ||
    c = '\u00A0' || c = '\u1680' || ('\u2000' ≤ c && c ≤ '\u200A') ||
    c = '\u2028' || c = '\u2029' || c = '\u202F' || c = '\u205F' ||
    c = '\u3000' || c = '\uFEFF'

/-- `s.trim()`: strip leading and trailing whitespace. -/
def trimTxt (s : Txt) : Txt :=
  ((s.dropWhile jsWs).reverse.dropWhile jsWs).reverse

/-- `expects pat l` consumes the literal `pat` from the front of `l`,
returning the remainder; `none` if `l` does not start with `pat`. -/
def expects : Txt → Txt → Option Txt
  | [], l => some l
  | _ :: _, [] => none
  | p :: ps, c :: cs => if c = p then expects ps cs else none

/-- `chunk.split('\n')` as in the client consumer. -/
def splitNl : Txt → List Txt
  | [] => [[]]
  | c :: r =>
    if c = '\n' then [] :: splitNl r
    else
      match splitNl r with
      | [] => [[c]]
      | l :: ls => (c :: l) :: ls

/-- Index of the first occurrence of `pat` in `l` (used to model the lazy
group `([\s\S]*?)` of the fenced-block regexes). -/
def findSub (pat : Txt) : Txt → Option Nat
  | [] => if pat.isEmpty then some 0 else none
  | l@(_ :: tl) =>
    if pat.isPrefixOf l then some 0
    else (findSub pat tl).map (· + 1)

/-- Lowercase hex digit, as produced by `JSON.stringify` in `\u00XX`
escapes of control characters. -/
def nibbleChar (n : Nat) : Char :=
  List.getD
    ('0' :: '1' :: '2' :: '3' :: '4' :: '5' :: '6' :: '7' :: '8' :: '9' ::
      'a' :: 'b' :: 'c' :: 'd' :: 'e' :: 'f' :: []) n '0'

/-- Hex digit value accepted by `JSON.parse` in `\uXXXX` escapes. -/
def hexDigVal (c : Char) : Option Nat :=
  if c = '0' then some 0 else if c = '1' then some 1
  else if c = '2' then some 2 else if c = '3' then some 3
  else if c = '4' then some 4 else if c = '5' then some 5
  else if c = '6' then some 6 else if c = '7' then some 7
  else if c = '8' then some 8 else if c = '9' then some 9
  else if c = 'a' then some 10 else if c = 'b' then some 11
  else if c = 'c' then some 12 else if c = 'd' then some 13
  else if c = 'e' then some 14 else if c = 'f' then some 15
  else if c = 'A' then some 10 else if c = 'B' then some 11
  else if c = 'C' then some 12 else if c = 'D' then some 13
  else if c = 'E' then some 14 else if c = 'F' then some 15
  else none

/-- The escape sequence `JSON.stringify` emits for one character inside a
string literal: `"` and `\` are backslash-escaped, the named control
characters use their short forms, other control characters use `\u00XX`,
everything else is copied verbatim. -/
def escChar (c : Char) : Txt :=
  if c = '"' then ['\\', '"']
  else if c = '\\' then ['\\', '\\']
  else if c = '\n' then ['\\', 'n']
  else if c = '\r' then ['\\', 'r']
  else if c = '\t' then ['\\', 't']
  else if c = '\x08' then ['\\', 'b']
  else if c = '\x0c' then ['\\', 'f']
  else if c.toNat < 32 then
    '\\' :: 'u' :: '0' :: '0' :: nibbleChar (c.toNat / 16) ::
      nibbleChar (c.toNat % 16) :: []
  else [c]

/-- `JSON.stringify` body of a string literal (without the outer quotes). -/
def escapeJson (s : Txt) : Txt := s.flatMap escChar

/-- Translation of one short escape accepted by `JSON.parse`. -/
def unescChar (c : Char) : Option Char :=
  if c = '"' then some '"'
  else if c = '\\' then some '\\'
  else if c = '/' then some '/'
  else if c = 'n' then some '\n'
  else if c = 'r' then some '\r'
  else if c = 't' then some '\t'
  else if c = 'b' then some '\x08'
  else if c = 'f' then some '\x0c'
  else none

/-- `JSON.parse` string-literal body parser, entered after the opening
quote: returns the decoded characters and the remainder after the closing
quote.  Raw control characters (U+0000 to U+001F) are rejected, as they
are by `JSON.parse`. -/
def parseStrLit : Txt → Option (Txt × Txt)
  | [] => none
  | c :: r =>
    if c = '"' then some ([], r)
    else if c = '\\' then
      match r with
      | [] => none
      | e :: r2 =>
        if e = 'u' then
          match r2 with
          | h1 :: h2 :: h3 :: h4 :: r3 =>
            (match hexDigVal h1, hexDigVal h2, hexDigVal h3, hexDigVal h4 with
             | some a, some b, some v3, some v4 =>
               (parseStrLit r3).map fun p =>
                 (Char.ofNat (((a * 16 + b) * 16 + v3) * 16 + v4) :: p.1, p.2)
             | _, _, _, _ => none)
          | _ => none
        else
          match unescChar e with
          | some u => (parseStrLit r2).map fun p => (u :: p.1, p.2)
          | none => none
    else if c.toNat < 32 then none
    else (parseStrLit r).map fun p => (c :: p.1, p.2)

/-!
## JSON document model

`JSON.parse` / `JSON.stringify` as used by the repository.  Values use an
explicit spine for arrays and objects so that every recursion is
structural.  Numbers keep their source text: the claims under check never
depend on binary floating-point formatting, only on parse success and on
integer reprinting.
-/

inductive Json where
  | null : Json
  | bool (b : Bool) : Json
  | num (raw : Txt) : Json
  | str (s : Txt) : Json
  | arrNil : Json
  | arrCons (hd : Json) (tl : Json) : Json
  | objNil : Json
  | objCons (key : Txt) (val : Json) (tl : Json) : Json
deriving DecidableEq, Repr

/-- Is the value an array (either spine constructor)? -/
def Json.isArr : Json → Bool
  | .arrNil => true
  | .arrCons _ _ => true
  | _ => false

/-- Is the value an object (either spine constructor)? -/
def Json.isObj : Json → Bool
  | .objNil => true
  | .objCons _ _ _ => true
  | _ => false

/-- Property lookup on an object value (`parsed.nodes` etc.);
`none` on non-objects or missing keys, like `undefined` in JS. -/
def Json.lookup (k : Txt) : Json → Option Json
  | .objCons key v tl => if key = k then some v else Json.lookup k tl
  | _ => none

/-- JS object-literal insertion as performed by `JSON.parse` on duplicate
keys: the later value wins but the property keeps its first position. -/
def Json.insertField (k : Txt) (v : Json) : Json → Json
  | .objCons key w tl =>
    if key = k then .objCons key v tl else .objCons key w (Json.insertField k v tl)
  | other => other

/-- Append a field to the end of an object spine if the key is new,
otherwise overwrite in place. -/
def Json.addField (o : Json) (k : Txt) (v : Json) : Json :=
  match (Json.lookup k o) with
  | some _ => Json.insertField k v o
  | none =>
    match o with
    | .objCons key w tl => .objCons key w (Json.addField tl k v)
    | _ => .objCons k v .objNil

/-- JSON whitespace accepted between tokens by `JSON.parse`
(space, tab, newline, carriage return). -/
def jsonWsChar (c : Char) : Bool :=
  c = ' ' || c = '\t' || c = '\n' || c = '\r'

def skipJsonWs (l : Txt) : Txt := l.dropWhile jsonWsChar

def isDigitChar (c : Char) : Bool := '0' ≤ c && c ≤ '9'

/-- Digits of a JSON number, collected verbatim. -/
def takeDigits (l : Txt) : Txt × Txt := (l.takeWhile isDigitChar, l.dropWhile isDigitChar)

/-- Fractional part `(\.[0-9]+)?` of a JSON number; `none` when a dot is
not followed by a digit (which makes the whole parse fail). -/
def parseFracPart : Txt → Option (Txt × Txt)
  | '.' :: r =>
    (match takeDigits r with
     | ([], _) => none
     | (fs, r2) => some ('.' :: fs, r2))
  | l => some ([], l)

/-- Exponent part `([eE][+-]?[0-9]+)?` of a JSON number; `none` when an
`e` is not followed by digits. -/
def parseExpPart : Txt → Option (Txt × Txt)
  | e :: r =>
    if e = 'e' ∨ e = 'E' then
      let p := match r with
        | s :: r2 => if s = '+' ∨ s = '-' then (([s] : Txt), r2) else (([] : Txt), r)
        | [] => (([] : Txt), r)
      (match takeDigits p.2 with
       | ([], _) => none
       | (es, r3) => some (e :: (p.1 ++ es), r3))
    else some ([], e :: r)
  | [] => some ([], [])

/-- JSON number grammar `-?(0|[1-9][0-9]*)(\.[0-9]+)?([eE][+-]?[0-9]+)?`,
returning the matched text verbatim and the remainder. -/
def parseNumTxt (l : Txt) : Option (Txt × Txt) :=
  let p := match l with
    | '-' :: r => ((['-'] : Txt), r)
    | _ => (([] : Txt), l)
  match takeDigits p.2 with
  | ([], _) => none
  | (d :: ds, r1) =>
    if d = '0' ∧ ds ≠ [] then none
    else
      match parseFracPart r1 with
      | none => none
      | some (frac, r2) =>
        match parseExpPart r2 with
        | none => none
        | some (ex, r3) => some (p.1 ++ (d :: ds) ++ frac ++ ex, r3)

/-- Array element loop of `JSON.parse`, entered after `[` when the array
is known to be nonempty; `pv` parses one value. -/
def arrLoop (pv : Txt → Option (Json × Txt)) : Nat → Txt → Option (List Json × Txt)
  | 0, _ => none
  | fuel + 1, l =>
    match pv l with
    | none => none
    | some (v, r) =>
      match skipJsonWs r with
      | ',' :: r2 => (arrLoop pv fuel r2).map fun p => (v :: p.1, p.2)
      | ']' :: r2 => some ([v], r2)
      | _ => none

/-- Object member loop of `JSON.parse`, entered after `{` when the object
is known to be nonempty. -/
def objLoop (pv : Txt → Option (Json × Txt)) : Nat → Txt → Option (List (Txt × Json) × Txt)
  | 0, _ => none
  | fuel + 1, l =>
    match skipJsonWs l with
    | '"' :: r =>
      match parseStrLit r with
      | none => none
      | some (k, r1) =>
        match skipJsonWs r1 with
        | ':' :: r2 =>
          match pv r2 with
          | none => none
          | some (v, r3) =>
            match skipJsonWs r3 with
            | ',' :: r4 => (objLoop pv fuel r4).map fun p => ((k, v) :: p.1, p.2)
            | '\x7d' :: r4 => some ([(k, v)], r4)
            | _ => none
        | _ => none
    | _ => none

/-- Build an array value from parsed items. -/
def arrOfList : List Json → Json
  | [] => .arrNil
  | v :: vs => .arrCons v (arrOfList vs)

/-- Build an object value from parsed members, later duplicate keys
overwriting earlier ones in place as in a JS object literal. -/
def objOfList (ms : List (Txt × Json)) : Json :=
  ms.foldl (fun o m => o.addField m.1 m.2) .objNil

/-- One JSON value, `JSON.parse` style: leading whitespace skipped, then
a literal, string, number, array or object.  Fuel bounds the recursion;
`jsonParseTop` supplies `length + 1`, which the grammar can never exhaust
since every nested parse first consumes at least one character. -/
def parseJsonVal : Nat → Txt → Option (Json × Txt)
  | 0, _ => none
  | fuel + 1, l =>
    let l1 := skipJsonWs l
    match expects ['n', 'u', 'l', 'l'] l1 with
    | some r => some (.null, r)
    | none =>
    match expects ['t', 'r', 'u', 'e'] l1 with
    | some r => some (.bool true, r)
    | none =>
    match expects ['f', 'a', 'l', 's', 'e'] l1 with
    | some r => some (.bool false, r)
    | none =>
    match l1 with
    | '"' :: r => (parseStrLit r).map fun p => (.str p.1, p.2)
    | '[' :: r =>
      (match skipJsonWs r with
       | ']' :: r2 => some (.arrNil, r2)
       | _ => (arrLoop (parseJsonVal fuel) fuel r).map fun p => (arrOfList p.1, p.2))
    | '\x7b' :: r =>
      (match skipJsonWs r with
       | '\x7d' :: r2 => some (.objNil, r2)
       | _ => (objLoop (parseJsonVal fuel) fuel r).map fun p => (objOfList p.1, p.2))
    | _ => (parseNumTxt l1).map fun p => (.num p.1, p.2)

/-- `JSON.parse`: a complete value with only whitespace around it. -/
def jsonParseTop (l : Txt) : Option Json :=
  match parseJsonVal (l.length + 1) l with
  | some (v, r) => if skipJsonWs r = [] then some v else none
  | none => none

/-- Two-space indentation used by `JSON.stringify(v, null, 2)`. -/
def indentTxt (n : Nat) : Txt := List.replicate n ' '

/-- `JSON.stringify(v, null, 2)`.  One recursion renders a value
(`mode = 0`), the remaining items of an array spine (`mode = 1`) or the
remaining members of an object spine (`mode = 2`); rest items are each
preceded by `,\n` and indentation.  Number values reprint their source
text. -/
def stringifyAux : Nat → Nat → Json → Txt
  | 0, _, .null => ['n', 'u', 'l', 'l']
  | 0, _, .bool true => ['t', 'r', 'u', 'e']
  | 0, _, .bool false => ['f', 'a', 'l', 's', 'e']
  | 0, _, .num raw => raw
  | 0, _, .str s => '"' :: escapeJson s ++ ['"']
  | 0, _, .arrNil => ['[', ']']
  | 0, ind, .arrCons hd tl =>
    ['[', '\n'] ++ indentTxt (ind + 2) ++ stringifyAux 0 (ind + 2) hd
      ++ stringifyAux 1 (ind + 2) tl ++ ['\n'] ++ indentTxt ind ++ [']']
  | 0, _, .objNil => ['\x7b', '\x7d']
  | 0, ind, .objCons k v tl =>
    ['\x7b', '\n'] ++ indentTxt (ind + 2) ++ '"' :: escapeJson k ++ ['"', ':', ' ']
      ++ stringifyAux 0 (ind + 2) v
      ++ stringifyAux 2 (ind + 2) tl ++ ['\n'] ++ indentTxt ind ++ ['\x7d']
  | 1, ind, .arrCons hd tl =>
    [',', '\n'] ++ indentTxt ind ++ stringifyAux 0 ind hd ++ stringifyAux 1 ind tl
  | 2, ind, .objCons k v tl =>
    [',', '\n'] ++ indentTxt ind ++ '"' :: escapeJson k ++ ['"', ':', ' ']
      ++ stringifyAux 0 ind v ++ stringifyAux 2 ind tl
  | _, _, _ => []

/-- `JSON.stringify(parsed, null, 2)` as called in `parseMessageContent`. -/
def stringifyPretty (v : Json) : Txt := stringifyAux 0 0 v

/-!
## Fenced-block parsing (ChatDiscussion.vue / ChatSidebar.vue)

Model of the two regexes run over the accumulated reply text:
closed blocks  ```json\s*\n([\s\S]*?)\n```  (global, leftmost, lazy group)
open blocks    ```json\s*\n                 (global)
The greedy `\s*` backtracks from the longest whitespace run down to the
largest prefix whose next character is a newline; the lazy group then
takes the closest following newline-plus-triple-backtick close marker.
-/

def fenceJson : Txt := "```json".data

def closeFence : Txt := "\n```".data

/-- Length of the maximal `\s` run at the front of `l`. -/
def wsCount (l : Txt) : Nat := (l.takeWhile jsWs).length

/-- Lazy continuation of the closed-block regex once `\s*` has consumed
`k` characters and `l.get? k = '\n'`: the group captures up to the first
`\n`-backtick close marker.  Returns the match length relative to the
character after ```json together with the captured group. -/
def contentSearch (after : Txt) (k : Nat) : Option (Nat × Txt) :=
  match findSub closeFence (after.drop (k + 1)) with
  | some t => some (k + 1 + t + 4, (after.drop (k + 1)).take t)
  | none => none

/-- Backtracking of the greedy `\s*`: try `k`, then `k - 1`, … stopping
at the first length whose following character is `\n` and whose lazy
continuation completes. -/
def closeSearch (after : Txt) : Nat → Option (Nat × Txt)
  | 0 =>
    if after.get? 0 = some '\n' then contentSearch after 0 else none
  | k + 1 =>
    match (if after.get? (k + 1) = some '\n' then contentSearch after (k + 1) else none) with
    | some res => some res
    | none => closeSearch after k

/-- Try the closed-block regex anchored at `pos`: returns the absolute
match end and the captured group. -/
def tryCompletedAt (text : Txt) (pos : Nat) : Option (Nat × Txt) :=
  match expects fenceJson (text.drop pos) with
  | none => none
  | some after =>
    (closeSearch after (wsCount after)).map fun p => (pos + 7 + p.1, p.2)

/-- Backtracking of `\s*` for the open-block regex: the largest `k` whose
following character is `\n`. -/
def nlSearch (after : Txt) : Nat → Option Nat
  | 0 => if after.get? 0 = some '\n' then some 0 else none
  | k + 1 => if after.get? (k + 1) = some '\n' then some (k + 1) else nlSearch after k

/-- Try the open-block regex anchored at `pos`: returns the absolute
position just after the matched `\n`, which is both the match end and
the recorded content start. -/
def tryIncompleteAt (text : Txt) (pos : Nat) : Option Nat :=
  match expects fenceJson (text.drop pos) with
  | none => none
  | some after =>
    (nlSearch after (wsCount after)).map fun k => pos + 7 + k + 1

/-- Global scan of the closed-block regex: leftmost match at or after
`pos`, then continue from its end (`lastIndex` semantics of `exec`).
Each entry is `(start, end, captured)`. -/
def scanCompleted (text : Txt) : Nat → Nat → List (Nat × Nat × Txt)
  | 0, _ => []
  | fuel + 1, pos =>
    if text.length < pos then []
    else
      match tryCompletedAt text pos with
      | some (e, c) => (pos, e, c) :: scanCompleted text fuel e
      | none => scanCompleted text fuel (pos + 1)

/-- Global scan of the open-block regex; each entry is
`(start, contentStart)` with the match ending at `contentStart`. -/
def scanIncomplete (text : Txt) : Nat → Nat → List (Nat × Nat)
  | 0, _ => []
  | fuel + 1, pos =>
    if text.length < pos then []
    else
      match tryIncompleteAt text pos with
      | some e => (pos, e) :: scanIncomplete text fuel e
      | none => scanIncomplete text fuel (pos + 1)

/-- A block found in the reply text: a completed fenced block with its
captured content, or an open block reaching to end-of-text. -/
inductive Blk where
  | completed (start stop : Nat) (content : Txt)
  | incomplete (start cstart : Nat)
deriving DecidableEq, Repr

def blkStart : Blk → Nat
  | .completed s _ _ => s
  | .incomplete s _ => s

/-- `block.end`: open blocks extend to the end of the text. -/
def blkStop (textLen : Nat) : Blk → Nat
  | .completed _ e _ => e
  | .incomplete _ _ => textLen

/-- Insertion into a list sorted by ascending start, modelling
`allBlocks.sort((a, b) => a.start - b.start)` (starts are distinct). -/
def insertBlk (b : Blk) : List Blk → List Blk
  | [] => [b]
  | x :: xs => if blkStart b ≤ blkStart x then b :: x :: xs else x :: insertBlk b xs

def sortBlks (l : List Blk) : List Blk := l.foldr insertBlk []

/-- `text.slice(a, b)` for our purposes (`0 ≤ a ≤ b`). -/
def sliceTxt (text : Txt) (a b : Nat) : Txt := (text.drop a).take (b - a)

/-- A parsed message part: plain text or a (pretty-printed) JSON block. -/
inductive Seg where
  | stext (content : Txt) : Seg
  | sjson (content : Txt) : Seg
deriving DecidableEq, Repr

/-- Reformat a block body for display: pretty-print when it parses,
otherwise pass the raw text through unchanged. -/
def renderJsonContent (raw : Txt) : Txt :=
  match jsonParseTop raw with
  | some v => stringifyPretty v
  | none => raw

/-- The `for (const block of allBlocks)` loop of `parseMessageContent`:
emit the trimmed text before each block (when nonempty) and then the
block itself, advancing `lastIndex` to the block end. -/
def emitLoop (text : Txt) : Nat → List Blk → List Seg
  | _, [] => []
  | lastIndex, b :: bs =>
    let bst := blkStart b
    let pre :=
      if lastIndex < bst then
        (let t := trimTxt (sliceTxt text lastIndex bst)
         if t = [] then [] else [Seg.stext t])
      else []
    let raw :=
      match b with
      | .completed _ _ c => c
      | .incomplete _ cstart => text.drop cstart
    pre ++ Seg.sjson (renderJsonContent raw) :: emitLoop text (blkStop text.length b) bs

/-- `lastIndex` after the block loop has run. -/
def finalLastIndex (textLen : Nat) : List Blk → Nat
  | [] => 0
  | [b] => blkStop textLen b
  | _ :: bs => finalLastIndex textLen bs

/-- The sorted block list `allBlocks` assembled by `parseMessageContent`:
closed-regex matches plus open-regex matches not inside a closed block. -/
def allBlocks (text : Txt) : List Blk :=
  let completed := scanCompleted text (text.length + 2) 0
  let incomplete := (scanIncomplete text (text.length + 2) 0).filter fun p =>
    !(completed.any fun q => decide (q.1 ≤ p.1) && decide (p.1 < q.2.1))
  sortBlks (completed.map (fun q => Blk.completed q.1 q.2.1 q.2.2)
    ++ incomplete.map fun p => Blk.incomplete p.1 p.2)

/-- `parseMessageContent` (ChatDiscussion.vue): split the reply text into
plain-text and JSON segments; if nothing was emitted, the whole text is a
single text segment. -/
def parseMessageContent (text : Txt) : List Seg :=
  let blks := allBlocks text
  let parts := emitLoop text 0 blks
  let li := finalLastIndex text.length blks
  let parts2 := parts ++
    (if li < text.length then
      (let t := trimTxt (text.drop li)
       if t = [] then [] else [Seg.stext t])
     else [])
  if parts2 = [] then [Seg.stext text] else parts2

/-!
## Workflow extraction and replacement (ChatSidebar.vue)
-/

/-- The closed ```json blocks of the full response, as found by
`responseText.matchAll(jsonBlockRegex)` in `extractWorkflowJson`
(the same regex as the closed-block case above). -/
def jsonBlocks (text : Txt) : List (Nat × Nat × Txt) :=
  scanCompleted text (text.length + 2) 0

/-- Truthiness of a JSON value in JS (`if (parsed && … && parsed.nodes …)`):
`null`, `false`, zero numbers and the empty string are falsy; arrays and
objects, including empty ones, are truthy. -/
def jsonTruthy : Json → Bool
  | .null => false
  | .bool b => b
  | .num raw =>
    !((raw.takeWhile fun c => c ≠ 'e' ∧ c ≠ 'E').all fun c => c = '0' || c = '-' || c = '.')
  | .str s => !s.isEmpty
  | _ => true

/-- `parsed && typeof parsed === 'object' && parsed.nodes &&
Array.isArray(parsed.nodes)`: only objects can satisfy the property
lookup, and a truthy `nodes` that is an array is exactly an array value. -/
def isWorkflowShape (v : Json) : Bool :=
  match v.lookup ('n' :: 'o' :: 'd' :: 'e' :: 's' :: []) with
  | some n => jsonTruthy n && n.isArr
  | none => false

/-- Parse-and-validate step applied to the selected candidate block body:
`JSON.parse` it and check the minimal workflow shape; `null` is modelled
as `none`. -/
def candidateCheck (c : Txt) : Option Json :=
  match jsonParseTop c with
  | some v => if isWorkflowShape v then some v else none
  | none => none

/-- `extractWorkflowJson` (ChatSidebar.vue): select the LAST closed block
as the candidate and run the parse-and-validate step on its body. -/
def extractWorkflowJson (text : Txt) : Option Json :=
  match (jsonBlocks text).getLast? with
  | none => none
  | some b => candidateCheck b.2.2

/-- Canvas side effects the completion handler can perform. -/
inductive WsAction where
  | reset : WsAction
  | initializeWorkspace (w : Json) : WsAction
  | setTitle (name : Txt) : WsAction
  | notifySuccess : WsAction
deriving DecidableEq, Repr

/-- `importWorkflowFromAI`: clear the workspace, load the new document,
set the document title when the workflow has a (truthy string) name, and
notify success. -/
def importActions (w : Json) : List WsAction :=
  [WsAction.reset, WsAction.initializeWorkspace w] ++
    (match w.lookup ('n' :: 'a' :: 'm' :: 'e' :: []) with
     | some (.str n) => if n.isEmpty then [] else [WsAction.setTitle n]
     | _ => []) ++ [WsAction.notifySuccess]

/-- Side effects of the `onComplete` callback in `handleSendMessage`:
replacement happens exactly when `extractWorkflowJson` returns a value. -/
def onCompleteActions (full : Txt) : List WsAction :=
  match extractWorkflowJson full with
  | some w => importActions w
  | none => []

/-- Net effect of completion on the active workflow document. -/
def completeWorkflow (wf : Json) (full : Txt) : Json :=
  match extractWorkflowJson full with
  | some w => w
  | none => wf

/-!
## Streaming relay (CopilotController, src/unnamed/part_000)
-/

structure ChatMessage where
  role : Txt
  content : Txt
deriving DecidableEq, Repr

def roleUser : Txt := "user".data

def roleAssistant : Txt := "assistant".data

/-- A request body accepted by `CopilotChatRequestDto`. -/
structure ChatReq where
  userMessage : Txt
  conversationHistory : List ChatMessage
deriving DecidableEq, Repr

/-- One history item under `z.object({role: z.enum([...]), content: z.string()})`:
an object whose `role` is one of the two literals and whose `content` is a
string (unknown keys are stripped). -/
def parseHistItem (v : Json) : Option ChatMessage :=
  match v.lookup "role".data, v.lookup "content".data with
  | some (.str r), some (.str c) =>
    if r = roleUser ∨ r = roleAssistant then some (ChatMessage.mk r c) else none
  | _, _ => none

/-- `z.array(...)` over history items. -/
def parseHistList : Json → Option (List ChatMessage)
  | .arrNil => some []
  | .arrCons hd tl =>
    (match parseHistItem hd, parseHistList tl with
     | some m, some ms => some (m :: ms)
     | _, _ => none)
  | _ => none

/-- `CopilotChatRequestDto.parse(req.body)`: `userMessage` must be a
nonempty string; `conversationHistory` is optional, defaulting to `[]`.
`none` models a thrown `ZodError`. -/
def zodParseChatReq (body : Json) : Option ChatReq :=
  if body.isObj then
    match body.lookup "userMessage".data with
    | some (.str s) =>
      if s.isEmpty then none
      else
        match body.lookup "conversationHistory".data with
        | none => some (ChatReq.mk s [])
        | some hv => (parseHistList hv).map fun ms => ChatReq.mk s ms
    | _ => none
  else none

structure Credential where
  cid : Nat
  ctype : Txt
deriving DecidableEq, Repr

def anthropicType : Txt := "anthropicApi".data

/-- Collaborators of `getAnthropicApiKey`: the user's credential list as
returned by `credentialsService.getMany`, and per credential id the
combined outcome of `findCredentialForUser` + `decrypt`: `none` means
`findCredentialForUser` returned null (no read permission), `some d`
means it was found and the decrypted data's `apiKey` field is `d`
(`none` when absent or not a string). -/
structure CredEnv where
  creds : List Credential
  fetchDecrypted : Nat → Option (Option Txt)

/-- Errors thrown before SSE headers are written. -/
inductive ApiError where
  | badRequest (msg : Txt) : ApiError
  | notFound (msg : Txt) : ApiError
  | forbidden (msg : Txt) : ApiError
deriving DecidableEq, Repr

def msgNoCreds : Txt :=
  "No Anthropic credentials found. Please configure Anthropic credentials first.".data

def msgForbidden : Txt :=
  "You do not have permission to access the Anthropic credentials.".data

def msgNoKey : Txt := "Anthropic API key not found in credentials.".data

def msgInvalidPayload : Txt := "Invalid request payload".data

/-- `getAnthropicApiKey`: first credential of type `anthropicApi`, else
NotFound; fetch with read scope, else Forbidden; decrypted `apiKey`
must be a (nonempty, since `!apiKey` is falsy on `""`) string, else
BadRequest. -/
def getAnthropicApiKey (env : CredEnv) : Except ApiError Txt :=
  match env.creds.find? (fun c => c.ctype = anthropicType) with
  | none => .error (.notFound msgNoCreds)
  | some cred =>
    match env.fetchDecrypted cred.cid with
    | none => .error (.forbidden msgForbidden)
    | some none => .error (.badRequest msgNoKey)
    | some (some key) =>
      if key.isEmpty then .error (.badRequest msgNoKey) else .ok key

/-- A wire-level SSE event payload written by the relay. -/
inductive Frame where
  | ftext (content : Txt) : Frame
  | ferror (content : Txt) : Frame
  | fcomplete : Frame
deriving DecidableEq, Repr

/-- One chunk yielded by the provider stream iterator: a text delta or
any other chunk type (ignored by the loop). -/
inductive ProviderChunk where
  | textDelta (s : Txt) : ProviderChunk
  | other : ProviderChunk
deriving DecidableEq, Repr

/-- One provider stream run: the chunks the `for await` loop receives,
and `some msg` when the stream then raises instead of ending normally. -/
structure ProviderRun where
  chunks : List ProviderChunk
  failure : Option Txt
deriving DecidableEq, Repr

def textDeltas (cs : List ProviderChunk) : List Txt :=
  cs.filterMap fun c => match c with | .textDelta s => some s | .other => none

/-- Terminal frame of the streaming phase: `complete` on normal
exhaustion, `error` with the message when the stream failed. -/
def terminalFrame : Option Txt → Frame
  | none => Frame.fcomplete
  | some m => Frame.ferror m

/-- Frames written by the streaming phase (the code after
`res.writeHead`): one text frame per text delta in arrival order, then
exactly one terminal frame, then `res.end()`. -/
def relayEvents (run : ProviderRun) : List Frame :=
  (textDeltas run.chunks).map Frame.ftext ++ [terminalFrame run.failure]

/-- Result of one request to `chatWithCopilot`: an error thrown before
`res.writeHead` (no SSE output at all), or SSE mode with the frames
written. -/
inductive ChatOutcome where
  | earlyError (e : ApiError) : ChatOutcome
  | streamed (events : List Frame) : ChatOutcome
deriving DecidableEq, Repr

/-- `chatWithCopilot`: validate the payload (ZodError becomes a 400
BadRequest), resolve the credential, and only then write SSE headers and
run the streaming phase. -/
def chatWithCopilot (body : Json) (env : CredEnv) (run : ProviderRun) : ChatOutcome :=
  match zodParseChatReq body with
  | none => .earlyError (.badRequest msgInvalidPayload)
  | some _ =>
    match getAnthropicApiKey env with
    | .error e => .earlyError e
    | .ok _ => .streamed (relayEvents run)

/-- `messages = [...conversationHistory, {role:'user', content:userMessage}]`. -/
def buildMessages (req : ChatReq) : List ChatMessage :=
  req.conversationHistory ++ [ChatMessage.mk roleUser req.userMessage]

/-- Whether `res.writeHead` ran for this outcome. -/
def headersWritten : ChatOutcome → Bool
  | .earlyError _ => false
  | .streamed _ => true

/-- SSE frames actually written for this outcome. -/
def framesWritten : ChatOutcome → List Frame
  | .earlyError _ => []
  | .streamed es => es

/-!
## Client stream consumer (AiChatService.streamChatResponse, src/unnamed/part_001)

The consumer is parametric in `jp`, the composite of `JSON.parse` and the
`switch (data.type)` dispatch guard on one `data: ` payload: `some f`
when the payload would dispatch frame `f`, `none` when parsing fails or
the type matches no case (both are skipped identically).
-/

/-- Callback invocations observable by the caller, in order. -/
inductive CbEvent where
  | onText (content : Txt) : CbEvent
  | onError (content : Txt) : CbEvent
  | onComplete : CbEvent
deriving DecidableEq, Repr

def dataMarker : Txt := ['d', 'a', 't', 'a', ':', ' ']

/-- One pass of `for (const line of lines)`: lines without the `data: `
marker, or whose payload does not dispatch, are skipped; a text frame
fires `onText` and continues; error/complete frames fire their callback
and return from the whole function (the Bool flags that early return). -/
def procLines (jp : Txt → Option Frame) : List Txt → List CbEvent × Bool
  | [] => ([], false)
  | l :: ls =>
    if dataMarker.isPrefixOf l then
      match jp (l.drop 6) with
      | some (.ftext c) =>
        let p := procLines jp ls
        (CbEvent.onText c :: p.1, p.2)
      | some (.ferror c) => ([CbEvent.onError c], true)
      | some .fcomplete => ([CbEvent.onComplete], true)
      | none => procLines jp ls
    else procLines jp ls

/-- The `while (true)` read loop: each network chunk is decoded and
split on newlines independently of every other chunk (no carry-over
buffer); a terminal frame returns early and later chunks are not read. -/
def readChunks (jp : Txt → Option Frame) : List Txt → List CbEvent × Bool
  | [] => ([], false)
  | ch :: rest =>
    let p := procLines jp (splitNl ch)
    if p.2 then p
    else
      let q := readChunks jp rest
      (p.1 ++ q.1, q.2)

/-- How one call to `streamChatResponse` can go at the network level:
non-success HTTP status, missing body, or a stream of chunks optionally
ending in a transport failure. -/
inductive FetchResult where
  | httpError (status : Txt) : FetchResult
  | noBody : FetchResult
  | stream (chunks : List Txt) (midFailure : Option Txt) : FetchResult

def httpErrorMsg (status : Txt) : Txt := "HTTP error! status: ".data ++ status

def noBodyMsg : Txt := "No response body".data

/-- `streamChatResponse`: `!response.ok` and `!response.body` throw into
the outer catch, which fires `onError`; otherwise the read loop runs and
a transport failure surfacing after it (only reachable when no terminal
frame already returned) also fires `onError` via the outer catch. -/
def streamChatResponse (jp : Txt → Option Frame) : FetchResult → List CbEvent
  | .httpError s => [CbEvent.onError (httpErrorMsg s)]
  | .noBody => [CbEvent.onError noBodyMsg]
  | .stream chunks midFailure =>
    let p := readChunks jp chunks
    if p.2 then p.1
    else
      p.1 ++ (match midFailure with
        | some m => [CbEvent.onError m]
        | none => [])

/-- The dispatchable frame carried by one line, if any. -/
def lineFrame (jp : Txt → Option Frame) (l : Txt) : Option Frame :=
  if dataMarker.isPrefixOf l then jp (l.drop 6) else none

/-- All well-formed frames of a chunk stream, in arrival order. -/
def framesOf (jp : Txt → Option Frame) (chunks : List Txt) : List Frame :=
  chunks.flatMap fun ch => (splitNl ch).filterMap (lineFrame jp)

/-- Modelled from the spec (consumer dispatch contract, §4.3): frames are
dispatched in arrival order — `text` fires `onText` and continues,
`error`/`complete` fire their callback once and stop processing. -/
def dispatchFrames : List Frame → List CbEvent × Bool
  | [] => ([], false)
  | .ftext c :: fs =>
    let p := dispatchFrames fs
    (CbEvent.onText c :: p.1, p.2)
  | .ferror c :: _ => ([CbEvent.onError c], true)
  | .fcomplete :: _ => ([CbEvent.onComplete], true)

/-- Modelled from the spec: full consumer contract over a chunked body —
dispatch the well-formed frames in order; when no terminal frame stopped
reading, a trailing transport failure surfaces as one `onError`. -/
def dispatchRef (frames : List Frame) (midFailure : Option Txt) : List CbEvent :=
  let p := dispatchFrames frames
  if p.2 then p.1
  else
    p.1 ++ (match midFailure with
      | some m => [CbEvent.onError m]
      | none => [])

/-- The callback a dispatched frame fires. -/
def cbOf : Frame → CbEvent
  | .ftext c => CbEvent.onText c
  | .ferror c => CbEvent.onError c
  | .fcomplete => CbEvent.onComplete

/-!
## SSE wire format

`JSON.stringify` of the three payload shapes the relay writes, and the
consumer-side acceptor for them.
-/

def typeHdr : Txt := ['\x7b', '"', 't', 'y', 'p', 'e', '"', ':', '"']

def textTail : Txt :=
  ['t', 'e', 'x', 't', '"', ',', '"', 'c', 'o', 'n', 't', 'e', 'n', 't', '"', ':', '"']

def errTail : Txt :=
  ['e', 'r', 'r', 'o', 'r', '"', ',', '"', 'c', 'o', 'n', 't', 'e', 'n', 't', '"', ':', '"']

def compTail : Txt := ['c', 'o', 'm', 'p', 'l', 'e', 't', 'e', '"', '\x7d']

/-- `JSON.stringify({type, content})` exactly as the relay produces it. -/
def serializeFrame : Frame → Txt
  | .ftext c => typeHdr ++ textTail ++ escapeJson c ++ ['"', '\x7d']
  | .ferror c => typeHdr ++ errTail ++ escapeJson c ++ ['"', '\x7d']
  | .fcomplete => typeHdr ++ compTail

/-- The `data: ` line of one frame. -/
def dataLineOf (f : Frame) : Txt := dataMarker ++ serializeFrame f

/-- The full wire bytes of one frame, `data: {...}\n\n`. -/
def wireBytes (f : Frame) : Txt := dataLineOf f ++ ['\n', '\n']

/-- Closing step of the wire acceptor: a string-literal body whose
closing quote is followed by exactly the closing brace. -/
def finishContent (k : Txt → Frame) (r : Txt) : Option Frame :=
  match parseStrLit r with
  | some (c, rest) => if rest = ['\x7d'] then some (k c) else none
  | none => none

/-- `JSON.parse` composed with the `switch (data.type)` dispatch guard,
on the relay's wire payloads: accepts exactly the three frame
serializations — the only payloads on which the real consumer dispatches
a callback — and rejects everything else. -/
def parseFrameWire (l : Txt) : Option Frame :=
  match expects typeHdr l with
  | none => none
  | some r =>
    match expects compTail r with
    | some [] => some .fcomplete
    | _ =>
      match expects textTail r with
      | some r2 => finishContent .ftext r2
      | none =>
        match expects errTail r with
        | some r2 => finishContent .ferror r2
        | none => none

/-- Terminal SSE frames: `complete` and `error` (everything but `text`). -/
def isTerminalFrame : Frame → Bool
  | .ftext _ => false
  | _ => true

/-- Modelled from the spec (request schema, §6): one history entry is an
object whose `role` property is the string `user` or `assistant` and
whose `content` property is a string. -/
def HistItemWF (v : Json) : Prop :=
  ∃ r c, v.lookup "role".data = some (Json.str r) ∧
    (r = roleUser ∨ r = roleAssistant) ∧ v.lookup "content".data = some (Json.str c)

/-- Modelled from the spec: a well-formed `conversationHistory` value is
an array of well-formed entries. -/
def HistWF : Json → Prop
  | .arrNil => True
  | .arrCons hd tl => HistItemWF hd ∧ HistWF tl
  | _ => False

/-!
## Helper lemmas
-/

theorem expects_self_append (pat l : Txt) : expects pat (pat ++ l) = some l := by
  induction pat with
  | nil => rfl
  | cons p ps ih => simp [expects, ih]

theorem expects_short (pat l : Txt) (h : l.length < pat.length) : expects pat l = none := by
  induction pat generalizing l with
  | nil => simp at h
  | cons p ps ih =>
    cases l with
    | nil => rfl
    | cons c cs =>
      simp only [expects]
      split
      · exact ih cs (by simpa using Nat.lt_of_succ_lt_succ h)
      · rfl

theorem expects_mismatch (p c : Char) (ps cs : Txt) (h : c ≠ p) :
    expects (p :: ps) (c :: cs) = none := by
  simp [expects, h]

theorem expects_nil_pat (l : Txt) : expects [] l = some l := rfl

/-!
## Claims C5, C6, C7 — parser behaviour
-/

/-- C5: the parser applied to `"intro ```json\n{"a":1}\n``` outro"`
returns exactly three segments in order: text `"intro"`, a structured
segment holding the pretty-printed JSON, and text `"outro"`. -/
theorem c5_parser_closed_block :
    parseMessageContent ("intro ```json\n\x7b\"a\":1\x7d\n``` outro".data) =
      [Seg.stext "intro".data,
       Seg.sjson "\x7b\n  \"a\": 1\n\x7d".data,
       Seg.stext "outro".data] := by
  decide

/-- C6: the parser applied to `"intro ```json\n{"a":1"` (open block, no
closing fence) returns exactly two segments: text `"intro"` and a
structured segment holding the raw text `{"a":1` verbatim, because JSON
parsing of it fails. -/
theorem c6_parser_open_block :
    parseMessageContent ("intro ```json\n\x7b\"a\":1".data) =
      [Seg.stext "intro".data, Seg.sjson "\x7b\"a\":1".data] := by
  decide

/-- C7: the parser is a pure, deterministic function of the full text —
two calls on the same input yield the same segment list.  In this
embedding the source function carries no mutable state across calls
(its regex state is local to each invocation), so the property holds
definitionally. -/
theorem c7_parser_deterministic (s : Txt) :
    parseMessageContent s = parseMessageContent s := rfl

/-!
## Claim C1 — relay SSE output shape
-/

/-- C1: every request that reaches the streaming phase writes one
`{type:text}` frame per provider text delta, in arrival order, followed
by exactly one terminal frame — `complete` on normal exhaustion, `error`
on failure — which is the last thing on the (then closed) channel. -/
theorem c1_relay_stream_shape (body : Json) (env : CredEnv) (run : ProviderRun)
    (evs : List Frame) (h : chatWithCopilot body env run = ChatOutcome.streamed evs) :
    evs = (textDeltas run.chunks).map Frame.ftext ++ [terminalFrame run.failure] ∧
    evs.filter isTerminalFrame = [terminalFrame run.failure] ∧
    evs.getLast? = some (terminalFrame run.failure) := by
  unfold chatWithCopilot at h
  rcases hz : zodParseChatReq body with _ | req
  · rw [hz] at h; simp at h
  · rw [hz] at h
    rcases hk : getAnthropicApiKey env with e | k
    · rw [hk] at h; simp at h
    · rw [hk] at h
      obtain rfl : relayEvents run = evs := by
        simpa using h
      refine ⟨rfl, ?_, ?_⟩
      · cases hf : run.failure <;>
          simp [relayEvents, terminalFrame, isTerminalFrame, List.filter_append,
            List.filter_map, Function.comp, hf]
      · simp [relayEvents, List.getLast?_concat]

/-- Witness for C1 at a concrete request, credential environment and
provider run. -/
theorem c1_relay_stream_shape_witness :
    chatWithCopilot (Json.objCons "userMessage".data (Json.str "hi".data) Json.objNil)
        (CredEnv.mk [Credential.mk 1 anthropicType] (fun _ => some (some "k".data)))
        (ProviderRun.mk [ProviderChunk.textDelta "t".data, ProviderChunk.other] none) =
      ChatOutcome.streamed [Frame.ftext "t".data, Frame.fcomplete] ∧
    ([Frame.ftext "t".data, Frame.fcomplete] =
        (textDeltas [ProviderChunk.textDelta "t".data, ProviderChunk.other]).map
          Frame.ftext ++ [terminalFrame none] ∧
      [Frame.ftext "t".data, Frame.fcomplete].filter isTerminalFrame =
        [terminalFrame none] ∧
      [Frame.ftext "t".data, Frame.fcomplete].getLast? = some (terminalFrame none)) :=
  ⟨by decide,
    c1_relay_stream_shape
      (Json.objCons "userMessage".data (Json.str "hi".data) Json.objNil)
      (CredEnv.mk [Credential.mk 1 anthropicType] (fun _ => some (some "k".data)))
      (ProviderRun.mk [ProviderChunk.textDelta "t".data, ProviderChunk.other] none)
      [Frame.ftext "t".data, Frame.fcomplete] (by decide)⟩

/-!
## Claim C4 — invalid or absent workflow block leaves the document alone
-/

/-- C4: when the full response has no closed block, or the selected
block's body fails to parse, or parses to something without an
array-valued `nodes` field, the completion handler performs no workspace
action (neither reset nor workspace load) and the active workflow document is
unchanged. -/
theorem c4_invalid_block_no_replacement (full : Txt) (wf : Json)
    (h : jsonBlocks full = [] ∨
      ∃ b, (jsonBlocks full).getLast? = some b ∧
        (jsonParseTop b.2.2 = none ∨
          ∃ v, jsonParseTop b.2.2 = some v ∧ isWorkflowShape v = false)) :
    extractWorkflowJson full = none ∧ onCompleteActions full = [] ∧
      completeWorkflow wf full = wf := by
  have hex : extractWorkflowJson full = none := by
    rcases h with hnil | ⟨b, hb, hcase⟩
    · simp [extractWorkflowJson, hnil]
    · rcases hcase with hp | ⟨v, hv, hshape⟩
      · simp [extractWorkflowJson, hb, candidateCheck, hp]
      · simp [extractWorkflowJson, hb, candidateCheck, hv, hshape]
  refine ⟨hex, ?_, ?_⟩
  · unfold onCompleteActions; rw [hex]
  · unfold completeWorkflow; rw [hex]

/-- Witness for C4, twice over: a block-free response, and a fenced block
whose body `JSON.parse` rejects (a raw newline inside a string literal). -/
theorem c4_invalid_block_no_replacement_witness :
    jsonBlocks ("hello there".data) = [] ∧
    (extractWorkflowJson ("hello there".data) = none ∧
      onCompleteActions ("hello there".data) = [] ∧
      completeWorkflow Json.objNil ("hello there".data) = Json.objNil) ∧
    (jsonBlocks ("```json\n\x7b\"nodes\": [\"a\nb\"]\x7d\n```".data)).getLast? =
      some (0, 30, "\x7b\"nodes\": [\"a\nb\"]\x7d".data) ∧
    jsonParseTop ("\x7b\"nodes\": [\"a\nb\"]\x7d".data) = none ∧
    (extractWorkflowJson ("```json\n\x7b\"nodes\": [\"a\nb\"]\x7d\n```".data) = none ∧
      onCompleteActions ("```json\n\x7b\"nodes\": [\"a\nb\"]\x7d\n```".data) = [] ∧
      completeWorkflow Json.objNil ("```json\n\x7b\"nodes\": [\"a\nb\"]\x7d\n```".data) =
        Json.objNil) :=
  ⟨by decide,
   c4_invalid_block_no_replacement _ _ (Or.inl (by decide)),
   by decide,
   by decide,
   c4_invalid_block_no_replacement _ _
     (Or.inr ⟨(0, 30, "\x7b\"nodes\": [\"a\nb\"]\x7d".data), by decide,
       Or.inl (by decide)⟩)⟩

/-!
## Claim C8 — missing credential fails before SSE headers
-/

/-- C8: for a validated request from a user whose credential list has no
`anthropicApi` entry, the handler throws the NotFound error from
`getAnthropicApiKey` before `res.writeHead`, so no SSE headers and no SSE
frames are ever written. -/
theorem c8_missing_credential_no_sse (body : Json) (env : CredEnv) (run : ProviderRun)
    (req : ChatReq) (hnone : ∀ c ∈ env.creds, c.ctype ≠ anthropicType)
    (hbody : zodParseChatReq body = some req) :
    chatWithCopilot body env run = ChatOutcome.earlyError (ApiError.notFound msgNoCreds) ∧
    headersWritten (chatWithCopilot body env run) = false ∧
    framesWritten (chatWithCopilot body env run) = [] := by
  have hfind : env.creds.find? (fun c => c.ctype = anthropicType) = none := by
    rw [List.find?_eq_none]
    intro c hc
    simp [hnone c hc]
  have hkey : getAnthropicApiKey env = Except.error (ApiError.notFound msgNoCreds) := by
    unfold getAnthropicApiKey
    rw [hfind]
  have hchat : chatWithCopilot body env run =
      ChatOutcome.earlyError (ApiError.notFound msgNoCreds) := by
    unfold chatWithCopilot
    rw [hbody, hkey]
  exact ⟨hchat, by rw [hchat]; rfl, by rw [hchat]; rfl⟩

/-- Witness for C8: a user with one credential of a different type. -/
theorem c8_missing_credential_no_sse_witness :
    (∀ c ∈ (CredEnv.mk [Credential.mk 1 "openAiApi".data] (fun _ => none)).creds,
        c.ctype ≠ anthropicType) ∧
    (chatWithCopilot (Json.objCons "userMessage".data (Json.str "hi".data) Json.objNil)
        (CredEnv.mk [Credential.mk 1 "openAiApi".data] (fun _ => none))
        (ProviderRun.mk [] none) =
      ChatOutcome.earlyError (ApiError.notFound msgNoCreds) ∧
      headersWritten (chatWithCopilot
        (Json.objCons "userMessage".data (Json.str "hi".data) Json.objNil)
        (CredEnv.mk [Credential.mk 1 "openAiApi".data] (fun _ => none))
        (ProviderRun.mk [] none)) = false ∧
      framesWritten (chatWithCopilot
        (Json.objCons "userMessage".data (Json.str "hi".data) Json.objNil)
        (CredEnv.mk [Credential.mk 1 "openAiApi".data] (fun _ => none))
        (ProviderRun.mk [] none)) = []) :=
  ⟨by decide,
    c8_missing_credential_no_sse
      (Json.objCons "userMessage".data (Json.str "hi".data) Json.objNil)
      (CredEnv.mk [Credential.mk 1 "openAiApi".data] (fun _ => none))
      (ProviderRun.mk [] none) (ChatReq.mk "hi".data []) (by decide) (by decide)⟩

/-!
## Claim C9 — request validation
-/

theorem histWF_parses (v : Json) (h : HistWF v) : ∃ ms, parseHistList v = some ms := by
  induction v with
  | arrCons hd tl _ ihtl =>
    obtain ⟨hitem, htl⟩ := h
    obtain ⟨r, c, hr, hrole, hc⟩ := hitem
    obtain ⟨ms, hms⟩ := ihtl htl
    refine ⟨ChatMessage.mk r c :: ms, ?_⟩
    simp [parseHistList, parseHistItem, hr, hc, hrole, hms]
  | arrNil => exact ⟨[], rfl⟩
  | null => exact absurd h (by simp [HistWF])
  | bool b => exact absurd h (by simp [HistWF])
  | num raw => exact absurd h (by simp [HistWF])
  | str s => exact absurd h (by simp [HistWF])
  | objNil => exact absurd h (by simp [HistWF])
  | objCons k v' tl _ _ => exact absurd h (by simp [HistWF])

/-- C9: a body whose `userMessage` is a nonempty string passes validation
with history defaulting to `[]` when absent and accepted as given when it
is a well-formed role/content list; a validated request proceeds to the
streaming phase; and a body whose `userMessage` is the empty string is
rejected with the 400 BadRequest before any streaming begins. -/
theorem c9_validation (body : Json) (um : Txt) (env : CredEnv) (run : ProviderRun)
    (hobj : body.isObj = true)
    (hum : body.lookup "userMessage".data = some (Json.str um)) :
    (um ≠ [] →
      (body.lookup "conversationHistory".data = none →
        zodParseChatReq body = some (ChatReq.mk um [])) ∧
      (∀ hv, body.lookup "conversationHistory".data = some hv → HistWF hv →
        ∃ ms, zodParseChatReq body = some (ChatReq.mk um ms))) ∧
    (∀ req k, zodParseChatReq body = some req → getAnthropicApiKey env = Except.ok k →
      chatWithCopilot body env run = ChatOutcome.streamed (relayEvents run)) ∧
    (um = [] →
      chatWithCopilot body env run =
        ChatOutcome.earlyError (ApiError.badRequest msgInvalidPayload) ∧
      headersWritten (chatWithCopilot body env run) = false) := by
  refine ⟨fun hne => ⟨?_, ?_⟩, ?_, fun he => ?_⟩
  · intro hch
    simp [zodParseChatReq, hobj, hum, hch, List.isEmpty_iff, hne]
  · intro hv hch hwf
    obtain ⟨ms, hms⟩ := histWF_parses hv hwf
    refine ⟨ms, ?_⟩
    simp [zodParseChatReq, hobj, hum, hch, List.isEmpty_iff, hne, hms]
  · intro req k hreq hk
    unfold chatWithCopilot
    rw [hreq, hk]
  · have hz : zodParseChatReq body = none := by
      simp [zodParseChatReq, hobj, hum, he]
    have hchat : chatWithCopilot body env run =
        ChatOutcome.earlyError (ApiError.badRequest msgInvalidPayload) := by
      unfold chatWithCopilot
      rw [hz]
    exact ⟨hchat, by rw [hchat]; rfl⟩

/-- Witness for C9: a body with nonempty message and one well-formed
history entry validates; a body with empty message is rejected. -/
theorem c9_validation_witness :
    (∃ ms, zodParseChatReq
        (Json.objCons "userMessage".data (Json.str "hi".data)
          (Json.objCons "conversationHistory".data
            (Json.arrCons
              (Json.objCons "role".data (Json.str "user".data)
                (Json.objCons "content".data (Json.str "yo".data) Json.objNil))
              Json.arrNil) Json.objNil)) =
      some (ChatReq.mk "hi".data ms)) ∧
    (chatWithCopilot (Json.objCons "userMessage".data (Json.str "".data) Json.objNil)
        (CredEnv.mk [] (fun _ => none)) (ProviderRun.mk [] none) =
      ChatOutcome.earlyError (ApiError.badRequest msgInvalidPayload) ∧
    headersWritten (chatWithCopilot
        (Json.objCons "userMessage".data (Json.str "".data) Json.objNil)
        (CredEnv.mk [] (fun _ => none)) (ProviderRun.mk [] none)) = false) :=
  ⟨((c9_validation
      (Json.objCons "userMessage".data (Json.str "hi".data)
        (Json.objCons "conversationHistory".data
          (Json.arrCons
            (Json.objCons "role".data (Json.str "user".data)
              (Json.objCons "content".data (Json.str "yo".data) Json.objNil))
            Json.arrNil) Json.objNil))
      "hi".data (CredEnv.mk [] (fun _ => none)) (ProviderRun.mk [] none)
      (by decide) (by decide)).1 (by decide)).2
      (Json.arrCons
        (Json.objCons "role".data (Json.str "user".data)
          (Json.objCons "content".data (Json.str "yo".data) Json.objNil))
        Json.arrNil)
      (by decide) ⟨⟨"user".data, "yo".data, by decide, Or.inl rfl, by decide⟩, trivial⟩,
   (c9_validation (Json.objCons "userMessage".data (Json.str "".data) Json.objNil)
      "".data (CredEnv.mk [] (fun _ => none)) (ProviderRun.mk [] none)
      (by decide) (by decide)).2.2 rfl⟩

/-!
## Claim C3 — extraction selects the last closed block
-/

theorem contentSearch_pos (after : Txt) (k : Nat) (p : Nat × Txt)
    (h : contentSearch after k = some p) : 1 ≤ p.1 := by
  unfold contentSearch at h
  rcases hf : findSub closeFence (after.drop (k + 1)) with _ | t
  · rw [hf] at h; simp at h
  · rw [hf] at h
    simp only [Option.some.injEq] at h
    subst h
    omega

theorem closeSearch_pos (after : Txt) (k : Nat) (p : Nat × Txt)
    (h : closeSearch after k = some p) : 1 ≤ p.1 := by
  induction k with
  | zero =>
    unfold closeSearch at h
    split at h
    · exact contentSearch_pos after 0 p h
    · simp at h
  | succ k ih =>
    unfold closeSearch at h
    rcases hs : (if after.get? (k + 1) = some '\n' then contentSearch after (k + 1)
        else none) with _ | res
    · rw [hs] at h
      exact ih h
    · rw [hs] at h
      simp only [Option.some.injEq] at h
      subst h
      split at hs
      · exact contentSearch_pos after (k + 1) res hs
      · simp at hs

theorem tryCompletedAt_lt (text : Txt) (pos : Nat) (e : Nat) (c : Txt)
    (h : tryCompletedAt text pos = some (e, c)) : pos < e := by
  unfold tryCompletedAt at h
  rcases he : expects fenceJson (text.drop pos) with _ | after
  · simp [he] at h
  · simp only [he] at h
    rcases hc : closeSearch after (wsCount after) with _ | p
    · simp [hc] at h
    · simp [hc] at h
      have hp := closeSearch_pos after (wsCount after) p hc
      omega

theorem scanCompleted_start_le (text : Txt) (fuel pos : Nat) (b : Nat × Nat × Txt)
    (h : b ∈ scanCompleted text fuel pos) : pos ≤ b.1 := by
  induction fuel generalizing pos with
  | zero => simp [scanCompleted] at h
  | succ fuel ih =>
    unfold scanCompleted at h
    by_cases hlen : text.length < pos
    · simp [hlen] at h
    · rw [if_neg hlen] at h
      rcases ht : tryCompletedAt text pos with _ | ⟨e, c⟩
      · simp only [ht] at h
        have := ih (pos + 1) h
        omega
      · simp only [ht] at h
        rcases List.mem_cons.mp h with h | h
        · subst h; simp
        · have h1 := ih e h
          have h2 := tryCompletedAt_lt text pos e c ht
          omega

theorem scanCompleted_pairwise (text : Txt) (fuel pos : Nat) :
    List.Pairwise (fun a b => a.1 < b.1) (scanCompleted text fuel pos) := by
  induction fuel generalizing pos with
  | zero => simp [scanCompleted]
  | succ fuel ih =>
    unfold scanCompleted
    by_cases hlen : text.length < pos
    · simp [hlen]
    · rw [if_neg hlen]
      rcases ht : tryCompletedAt text pos with _ | ⟨e, c⟩
      · exact ih (pos + 1)
      · refine List.Pairwise.cons ?_ (ih e)
        intro b hb
        have h1 := scanCompleted_start_le text fuel e b hb
        have h2 := tryCompletedAt_lt text pos e c ht
        simp only []
        omega

theorem getLastOptMem {α : Type} (l : List α) (a : α) (h : l.getLast? = some a) :
    a ∈ l := by
  induction l with
  | nil => simp at h
  | cons x xs ih =>
    cases xs with
    | nil =>
      simp [List.getLast?] at h
      simp [h]
    | cons y ys =>
      rw [List.getLast?_cons_cons] at h
      exact List.mem_cons_of_mem x (ih h)

/-- C3: with at least two closed ```json blocks in the response, the
extraction step selects the content of the LAST block — the one with the
strictly greatest start position — as the candidate, not the first. -/
theorem c3_extraction_selects_last (t : Txt) (h2 : 2 ≤ (jsonBlocks t).length) :
    ∃ last, (jsonBlocks t).getLast? = some last ∧
      extractWorkflowJson t = candidateCheck last.2.2 ∧
      (∀ b ∈ jsonBlocks t, b ≠ last → b.1 < last.1) ∧
      ∃ first rest, jsonBlocks t = first :: rest ∧ first.1 < last.1 := by
  have hne : jsonBlocks t ≠ [] := by
    intro hnil
    rw [hnil] at h2
    simp at h2
  rcases hlast : (jsonBlocks t).getLast? with _ | last
  · rw [List.getLast?_eq_getLast_of_ne_nil hne] at hlast
    simp at hlast
  · have hpw : List.Pairwise (fun a b => a.1 < b.1) (jsonBlocks t) :=
      scanCompleted_pairwise t (t.length + 2) 0
    refine ⟨last, rfl, ?_, ?_, ?_⟩
    · simp [extractWorkflowJson, hlast]
    · have hdecomp := List.dropLast_append_getLast? last (Option.mem_def.mpr hlast)
      rw [← hdecomp] at hpw
      have hlt := (List.pairwise_append.mp hpw).2.2
      intro b hb hbne
      rw [← hdecomp] at hb
      rcases List.mem_append.mp hb with hmem | hmem
      · exact hlt b hmem _ (List.mem_singleton_self _)
      · exact absurd (List.mem_singleton.mp hmem) hbne
    · rcases hbs : jsonBlocks t with _ | ⟨first, rest⟩
      · exact absurd hbs hne
      · refine ⟨first, rest, rfl, ?_⟩
        have hrne : rest ≠ [] := by
          intro hnil
          rw [hbs, hnil] at h2
          simp at h2
        rw [hbs] at hpw hlast
        have hfirst := (List.pairwise_cons.mp hpw).1
        have hcc : (first :: rest).getLast? = rest.getLast? := by
          cases rest with
          | nil => exact absurd rfl hrne
          | cons r rs => exact List.getLast?_cons_cons
        rw [hcc] at hlast
        exact hfirst last (getLastOptMem rest last hlast)

/-- Witness for C3 at a response with two closed blocks. -/
theorem c3_extraction_selects_last_witness :
    2 ≤ (jsonBlocks ("a ```json\n1\n``` b ```json\n2\n``` c".data)).length ∧
    (∃ last, (jsonBlocks ("a ```json\n1\n``` b ```json\n2\n``` c".data)).getLast? = some last ∧
      extractWorkflowJson ("a ```json\n1\n``` b ```json\n2\n``` c".data) =
        candidateCheck last.2.2 ∧
      (∀ b ∈ jsonBlocks ("a ```json\n1\n``` b ```json\n2\n``` c".data), b ≠ last →
        b.1 < last.1) ∧
      ∃ first rest, jsonBlocks ("a ```json\n1\n``` b ```json\n2\n``` c".data) =
        first :: rest ∧ first.1 < last.1) :=
  ⟨by decide, c3_extraction_selects_last ("a ```json\n1\n``` b ```json\n2\n``` c".data) (by decide)⟩

/-!
## Claim C2 — consumer dispatch
-/

theorem procLines_eq (jp : Txt → Option Frame) (lines : List Txt) :
    procLines jp lines = dispatchFrames (lines.filterMap (lineFrame jp)) := by
  induction lines with
  | nil => rfl
  | cons l ls ih =>
    by_cases hp : dataMarker.isPrefixOf l
    · rcases hj : jp (l.drop 6) with _ | f
      · simp [procLines, List.filterMap_cons, lineFrame, hp, hj, ih]
      · cases f <;> simp [procLines, List.filterMap_cons, lineFrame, hp, hj, ih, dispatchFrames]
    · simp [procLines, List.filterMap_cons, lineFrame, hp, ih]

theorem dispatchFrames_append (a b : List Frame) :
    dispatchFrames (a ++ b) =
      (if (dispatchFrames a).2 then dispatchFrames a
       else ((dispatchFrames a).1 ++ (dispatchFrames b).1, (dispatchFrames b).2)) := by
  induction a with
  | nil => simp [dispatchFrames]
  | cons f as ih =>
    cases f with
    | ftext c =>
      by_cases h : (dispatchFrames as).2 <;>
        simp [dispatchFrames, ih, h]
    | ferror c => simp [dispatchFrames]
    | fcomplete => simp [dispatchFrames]

theorem readChunks_eq (jp : Txt → Option Frame) (chunks : List Txt) :
    readChunks jp chunks = dispatchFrames (framesOf jp chunks) := by
  induction chunks with
  | nil => rfl
  | cons ch rest ih =>
    simp only [readChunks, framesOf, List.flatMap_cons, procLines_eq, ih,
      dispatchFrames_append]

theorem dispatchFrames_shape (fs : List Frame) :
    ∃ ts : List Txt,
      ((dispatchFrames fs).2 = false ∧ (dispatchFrames fs).1 = ts.map CbEvent.onText) ∨
      (∃ e, (dispatchFrames fs).1 = ts.map CbEvent.onText ++ [e] ∧
        (dispatchFrames fs).2 = true ∧
        (e = CbEvent.onComplete ∨ ∃ m, e = CbEvent.onError m)) := by
  induction fs with
  | nil => exact ⟨[], Or.inl ⟨rfl, rfl⟩⟩
  | cons f fs ih =>
    cases f with
    | ftext c =>
      obtain ⟨ts, ih⟩ := ih
      refine ⟨c :: ts, ?_⟩
      rcases ih with ⟨h2, h1⟩ | ⟨e, h1, h2, he⟩
      · exact Or.inl ⟨by simp [dispatchFrames, h2], by simp [dispatchFrames, h1]⟩
      · exact Or.inr ⟨e, by simp [dispatchFrames, h1], by simp [dispatchFrames, h2], he⟩
    | ferror c =>
      exact ⟨[], Or.inr ⟨CbEvent.onError c, by simp [dispatchFrames], rfl,
        Or.inr ⟨c, rfl⟩⟩⟩
    | fcomplete =>
      exact ⟨[], Or.inr ⟨CbEvent.onComplete, by simp [dispatchFrames], rfl, Or.inl rfl⟩⟩

/-- C2: the consumer dispatches each well-formed `data: ` frame in
arrival order (refinement against the spec dispatcher, for every payload
parser); every run is some `onText`s followed by at most one terminal
callback, which ends the run; an error frame stops all further frame
processing; and network-level failures fire `onError` alone, never
`onComplete`. -/
theorem c2_consumer_dispatch :
    (∀ (jp : Txt → Option Frame) (chunks : List Txt) (mf : Option Txt),
      streamChatResponse jp (FetchResult.stream chunks mf) =
        dispatchRef (framesOf jp chunks) mf) ∧
    (∀ (jp : Txt → Option Frame) (r : FetchResult), ∃ (ts : List Txt) (rest : List CbEvent),
      streamChatResponse jp r = ts.map CbEvent.onText ++ rest ∧
      (rest = [] ∨ rest = [CbEvent.onComplete] ∨ ∃ m, rest = [CbEvent.onError m])) ∧
    (∀ (fs fs' : List Frame) (c : Txt), (dispatchFrames fs).2 = false →
      dispatchFrames (fs ++ Frame.ferror c :: fs') =
        ((dispatchFrames fs).1 ++ [CbEvent.onError c], true)) ∧
    (∀ (jp : Txt → Option Frame) (st : Txt),
      streamChatResponse jp (FetchResult.httpError st) =
        [CbEvent.onError (httpErrorMsg st)]) ∧
    (∀ jp : Txt → Option Frame,
      streamChatResponse jp FetchResult.noBody = [CbEvent.onError noBodyMsg]) := by
  refine ⟨?_, ?_, ?_, ?_, ?_⟩
  · intro jp chunks mf
    simp only [streamChatResponse, dispatchRef, readChunks_eq]
  · intro jp r
    cases r with
    | httpError st =>
      exact ⟨[], [CbEvent.onError (httpErrorMsg st)], rfl,
        Or.inr (Or.inr ⟨httpErrorMsg st, rfl⟩)⟩
    | noBody => exact ⟨[], [CbEvent.onError noBodyMsg], rfl, Or.inr (Or.inr ⟨noBodyMsg, rfl⟩)⟩
    | stream chunks mf =>
      obtain ⟨ts, hsh⟩ := dispatchFrames_shape (framesOf jp chunks)
      rcases hsh with ⟨h2, h1⟩ | ⟨e, h1, h2, he⟩
      · cases mf with
        | none =>
          refine ⟨ts, [], ?_, Or.inl rfl⟩
          simp [streamChatResponse, readChunks_eq, h2, h1]
        | some m =>
          refine ⟨ts, [CbEvent.onError m], ?_, Or.inr (Or.inr ⟨m, rfl⟩)⟩
          simp [streamChatResponse, readChunks_eq, h2, h1]
      · refine ⟨ts, [e], ?_, ?_⟩
        · simp [streamChatResponse, readChunks_eq, h2, h1]
        · rcases he with he | ⟨m, he⟩
          · exact Or.inr (Or.inl (by rw [he]))
          · exact Or.inr (Or.inr ⟨m, by rw [he]⟩)
  · intro fs fs' c h
    simp [dispatchFrames_append, h, dispatchFrames]
  · intro jp st
    rfl
  · intro jp
    rfl

/-- Witness for C2: the error-frame conjunct applied at a concrete frame
list, plus a concrete chunked run. -/
theorem c2_consumer_dispatch_witness :
    (dispatchFrames [Frame.ftext "a".data]).2 = false ∧
    dispatchFrames ([Frame.ftext "a".data] ++ Frame.ferror "e".data :: [Frame.ftext "b".data]) =
      ((dispatchFrames [Frame.ftext "a".data]).1 ++ [CbEvent.onError "e".data], true) ∧
    streamChatResponse parseFrameWire
        (FetchResult.stream [wireBytes (Frame.ftext "a".data), wireBytes Frame.fcomplete] none) =
      dispatchRef (framesOf parseFrameWire
        [wireBytes (Frame.ftext "a".data), wireBytes Frame.fcomplete]) none :=
  ⟨by decide,
    c2_consumer_dispatch.2.2.1 [Frame.ftext "a".data] [Frame.ftext "b".data] "e".data (by decide),
    c2_consumer_dispatch.1 parseFrameWire
      [wireBytes (Frame.ftext "a".data), wireBytes Frame.fcomplete] none⟩

/-!
## Claim C10 — wire-format lemmas

A frame split across two chunks is never dispatched: the pieces either
lack the `data: ` marker or their payload is a strict prefix/suffix of a
serialized frame, which the payload parser rejects.
-/

theorem hexDigVal_nibbleChar : ∀ n, n < 16 → hexDigVal (nibbleChar n) = some n := by
  decide

theorem nibbleChar_props (n : Nat) :
    nibbleChar n ≠ '\x7b' ∧ nibbleChar n ≠ '\n' ∧ nibbleChar n ≠ '"' ∧
      nibbleChar n ≠ '\\' := by
  rcases Nat.lt_or_ge n 16 with h | h
  · have hball : ∀ m, m < 16 → nibbleChar m ≠ '\x7b' ∧ nibbleChar m ≠ '\n' ∧
        nibbleChar m ≠ '"' ∧ nibbleChar m ≠ '\\' := by decide
    exact hball n h
  · unfold nibbleChar
    rw [List.getD_eq_default]
    · decide
    · simpa using h

theorem parseStrLit_unicode (h1 h2 h3 h4 : Char) (l : Txt) :
    parseStrLit ('\\' :: 'u' :: h1 :: h2 :: h3 :: h4 :: l) =
      (match hexDigVal h1, hexDigVal h2, hexDigVal h3, hexDigVal h4 with
       | some a, some b, some v3, some v4 =>
         (parseStrLit l).map fun p =>
           (Char.ofNat (((a * 16 + b) * 16 + v3) * 16 + v4) :: p.1, p.2)
       | _, _, _, _ => none) := by
  rw [parseStrLit.eq_def]
  rfl

theorem parseStrLit_plain (c : Char) (l : Txt) (h1 : c ≠ '"') (h2 : c ≠ '\\')
    (h3 : ¬c.toNat < 32) :
    parseStrLit (c :: l) = (parseStrLit l).map fun p => (c :: p.1, p.2) := by
  rw [parseStrLit.eq_def]
  simp [h1, h2, h3]

theorem parseStrLit_escChar (c : Char) (l : Txt) :
    parseStrLit (escChar c ++ l) = (parseStrLit l).map fun p => (c :: p.1, p.2) := by
  unfold escChar
  split_ifs with h1 h2 h3 h4 h5 h6 h7 h8
  · subst h1
    simp only [List.cons_append, List.nil_append]
    rw [parseStrLit.eq_def]
    rfl
  · subst h2
    simp only [List.cons_append, List.nil_append]
    rw [parseStrLit.eq_def]
    rfl
  · subst h3
    simp only [List.cons_append, List.nil_append]
    rw [parseStrLit.eq_def]
    rfl
  · subst h4
    simp only [List.cons_append, List.nil_append]
    rw [parseStrLit.eq_def]
    rfl
  · subst h5
    simp only [List.cons_append, List.nil_append]
    rw [parseStrLit.eq_def]
    rfl
  · subst h6
    simp only [List.cons_append, List.nil_append]
    rw [parseStrLit.eq_def]
    rfl
  · subst h7
    simp only [List.cons_append, List.nil_append]
    rw [parseStrLit.eq_def]
    rfl
  · have hdiv : c.toNat / 16 < 16 := by omega
    have hmod : c.toNat % 16 < 16 := Nat.mod_lt _ (by norm_num)
    simp only [List.cons_append, List.nil_append]
    rw [parseStrLit_unicode]
    rw [hexDigVal_nibbleChar _ hdiv, hexDigVal_nibbleChar _ hmod]
    simp only [hexDigVal]
    norm_num
    have hval : c.toNat / 16 * 16 + c.toNat % 16 = c.toNat := by omega
    rw [hval, Char.ofNat_toNat]
  · simp only [List.cons_append, List.nil_append]
    exact parseStrLit_plain c l h1 h2 h8

theorem parseStrLit_roundtrip (s : Txt) (r : Txt) :
    parseStrLit (escapeJson s ++ '"' :: r) = some (s, r) := by
  induction s with
  | nil =>
    simp only [escapeJson, List.flatMap_nil, List.nil_append]
    rw [parseStrLit.eq_def]
    rfl
  | cons c cs ih =>
    have : escapeJson (c :: cs) ++ '"' :: r = escChar c ++ (escapeJson cs ++ '"' :: r) := by
      simp [escapeJson]
    rw [this, parseStrLit_escChar, ih]
    rfl

theorem parseStrLit_take_escChar (c : Char) (n : Nat) (h : n < (escChar c).length) :
    parseStrLit ((escChar c).take n) = none := by
  unfold escChar at h ⊢
  split_ifs at h ⊢ with h1 h2 h3 h4 h5 h6 h7 h8
  · simp at h; interval_cases n <;> decide
  · simp at h; interval_cases n <;> decide
  · simp at h; interval_cases n <;> decide
  · simp at h; interval_cases n <;> decide
  · simp at h; interval_cases n <;> decide
  · simp at h; interval_cases n <;> decide
  · simp at h; interval_cases n <;> decide
  · simp at h
    interval_cases n <;>
      simp only [List.take_succ_cons, List.take_zero] <;>
      first
        | decide
        | (rw [parseStrLit.eq_def]; rfl)
  · simp at h
    subst h
    simp only [List.take_zero]
    decide

theorem escapeJson_cons (c : Char) (cs : Txt) :
    escapeJson (c :: cs) = escChar c ++ escapeJson cs := by
  simp [escapeJson]

theorem parseStrLit_prefix_none (s : Txt) (n : Nat)
    (h : n < (escapeJson s).length + 1) :
    parseStrLit ((escapeJson s ++ ['"']).take n) = none := by
  induction s generalizing n with
  | nil =>
    simp only [escapeJson, List.flatMap_nil] at h ⊢
    simp at h
    subst h
    decide
  | cons c cs ih =>
    rw [escapeJson_cons] at h ⊢
    rw [List.append_assoc, List.take_append_eq_append_take]
    rcases Nat.lt_or_ge n (escChar c).length with hk | hk
    · rw [Nat.sub_eq_zero_of_le (Nat.le_of_lt hk)]
      simp only [List.take_zero, List.append_nil]
      exact parseStrLit_take_escChar c n hk
    · rw [List.take_of_length_le hk, parseStrLit_escChar,
        ih (n - (escChar c).length) (by simp [List.length_append] at h; omega)]
      rfl

theorem escChar_cons (c : Char) :
    ∃ hd tl, escChar c = hd :: tl ∧ hd ≠ '"' := by
  unfold escChar
  split_ifs with h1 h2 h3 h4 h5 h6 h7 h8
  · exact ⟨'\\', _, rfl, by decide⟩
  · exact ⟨'\\', _, rfl, by decide⟩
  · exact ⟨'\\', _, rfl, by decide⟩
  · exact ⟨'\\', _, rfl, by decide⟩
  · exact ⟨'\\', _, rfl, by decide⟩
  · exact ⟨'\\', _, rfl, by decide⟩
  · exact ⟨'\\', _, rfl, by decide⟩
  · exact ⟨'\\', _, rfl, by decide⟩
  · exact ⟨c, [], rfl, h1⟩

/-- After an opening brace coming from escaped content, the remainder of
the string region can never spell the `"type":"` key: content quotes are
escaped, so the required unescaped quote is missing (or the text ends
too early at the closing quote). -/
theorem expects_typekey_escape (cs : Txt) :
    expects ['"', 't', 'y', 'p', 'e', '"', ':', '"']
      (escapeJson cs ++ ['"', '\x7d']) = none := by
  cases cs with
  | nil => decide
  | cons c' cs' =>
    obtain ⟨hd, tl, hesc, hne⟩ := escChar_cons c'
    rw [escapeJson_cons, hesc]
    simp only [List.cons_append, List.append_assoc]
    exact expects_mismatch _ _ _ _ fun hcontra => hne hcontra

/-- No suffix of the serialized string region (escaped content, closing
quote, closing brace) can satisfy the `{"type":"` header expected by the
payload parser. -/
theorem expects_typeHdr_drop (s : Txt) (k : Nat) :
    expects typeHdr ((escapeJson s ++ ['"', '\x7d']).drop k) = none := by
  induction s generalizing k with
  | nil =>
    simp only [escapeJson, List.flatMap_nil, List.nil_append]
    cases k with
    | zero => decide
    | succ k1 =>
      cases k1 with
      | zero => decide
      | succ k2 =>
        rw [List.drop_eq_nil_of_le (by simp)]
        decide
  | cons c cs ih =>
    rw [escapeJson_cons, List.append_assoc, List.drop_append_eq_append_drop]
    rcases Nat.lt_or_ge k (escChar c).length with hk | hk
    · rw [Nat.sub_eq_zero_of_le (Nat.le_of_lt hk), List.drop_zero]
      unfold escChar at hk ⊢
      split_ifs at hk ⊢ with h1 h2 h3 h4 h5 h6 h7 h8
      · simp at hk
        interval_cases k <;>
          simp only [List.drop_succ_cons, List.drop_zero, List.cons_append,
            List.nil_append] <;>
          exact expects_mismatch _ _ _ _ (by decide)
      · simp at hk
        interval_cases k <;>
          simp only [List.drop_succ_cons, List.drop_zero, List.cons_append,
            List.nil_append] <;>
          exact expects_mismatch _ _ _ _ (by decide)
      · simp at hk
        interval_cases k <;>
          simp only [List.drop_succ_cons, List.drop_zero, List.cons_append,
            List.nil_append] <;>
          exact expects_mismatch _ _ _ _ (by decide)
      · simp at hk
        interval_cases k <;>
          simp only [List.drop_succ_cons, List.drop_zero, List.cons_append,
            List.nil_append] <;>
          exact expects_mismatch _ _ _ _ (by decide)
      · simp at hk
        interval_cases k <;>
          simp only [List.drop_succ_cons, List.drop_zero, List.cons_append,
            List.nil_append] <;>
          exact expects_mismatch _ _ _ _ (by decide)
      · simp at hk
        interval_cases k <;>
          simp only [List.drop_succ_cons, List.drop_zero, List.cons_append,
            List.nil_append] <;>
          exact expects_mismatch _ _ _ _ (by decide)
      · simp at hk
        interval_cases k <;>
          simp only [List.drop_succ_cons, List.drop_zero, List.cons_append,
            List.nil_append] <;>
          exact expects_mismatch _ _ _ _ (by decide)
      · simp at hk
        interval_cases k <;>
          simp only [List.drop_succ_cons, List.drop_zero, List.cons_append,
            List.nil_append] <;>
          first
            | exact expects_mismatch _ _ _ _ (by decide)
            | exact expects_mismatch _ _ _ _ ((nibbleChar_props _).1)
      · simp at hk
        subst hk
        simp only [List.drop_zero, List.cons_append, List.nil_append]
        by_cases hc : c = '\x7b'
        · subst hc
          have hred : expects typeHdr ('\x7b' :: (escapeJson cs ++ ['"', '\x7d'])) =
              expects ['"', 't', 'y', 'p', 'e', '"', ':', '"']
                (escapeJson cs ++ ['"', '\x7d']) := by
            simp [typeHdr, expects]
          rw [hred]
          exact expects_typekey_escape cs
        · exact expects_mismatch _ _ _ _ hc
    · rw [List.drop_eq_nil_of_le hk, List.nil_append]
      exact ih (k - (escChar c).length)

theorem parseFrameWire_head (c : Char) (l : Txt) (h : c ≠ '\x7b') :
    parseFrameWire (c :: l) = none := by
  unfold parseFrameWire
  have hm : expects typeHdr (c :: l) = none := expects_mismatch _ _ _ _ h
  rw [hm]

theorem parseFrameWire_expects_none (l : Txt) (h : expects typeHdr l = none) :
    parseFrameWire l = none := by
  unfold parseFrameWire
  rw [h]

theorem parseFrameWire_typeHdr_append (X : Txt) :
    parseFrameWire (typeHdr ++ X) =
      (match expects compTail X with
       | some [] => some Frame.fcomplete
       | _ =>
         match expects textTail X with
         | some r2 => finishContent Frame.ftext r2
         | none =>
           match expects errTail X with
           | some r2 => finishContent Frame.ferror r2
           | none => none) := by
  unfold parseFrameWire
  rw [expects_self_append]

theorem parseFrameWire_serialize (f : Frame) :
    parseFrameWire (serializeFrame f) = some f := by
  cases f with
  | fcomplete => decide
  | ftext c =>
    have hX : serializeFrame (Frame.ftext c) =
        typeHdr ++ (textTail ++ (escapeJson c ++ ['"', '\x7d'])) := by
      simp [serializeFrame, List.append_assoc]
    rw [hX, parseFrameWire_typeHdr_append]
    have hc : expects compTail (textTail ++ (escapeJson c ++ ['"', '\x7d'])) = none := by
      simp [compTail, textTail, expects]
    have ht : expects textTail (textTail ++ (escapeJson c ++ ['"', '\x7d'])) =
        some (escapeJson c ++ ['"', '\x7d']) := expects_self_append _ _
    rw [hc, ht]
    simp [finishContent, parseStrLit_roundtrip]
  | ferror c =>
    have hX : serializeFrame (Frame.ferror c) =
        typeHdr ++ (errTail ++ (escapeJson c ++ ['"', '\x7d'])) := by
      simp [serializeFrame, List.append_assoc]
    rw [hX, parseFrameWire_typeHdr_append]
    have hc : expects compTail (errTail ++ (escapeJson c ++ ['"', '\x7d'])) = none := by
      simp [compTail, errTail, expects]
    have ht : expects textTail (errTail ++ (escapeJson c ++ ['"', '\x7d'])) = none := by
      simp [textTail, errTail, expects]
    have he : expects errTail (errTail ++ (escapeJson c ++ ['"', '\x7d'])) =
        some (escapeJson c ++ ['"', '\x7d']) := expects_self_append _ _
    rw [hc, ht, he]
    simp [finishContent, parseStrLit_roundtrip]

theorem typeHdr_len : typeHdr.length = 9 := rfl

theorem textTail_len : textTail.length = 17 := rfl

theorem errTail_len : errTail.length = 18 := rfl

theorem escQuoteBrace (c : Txt) :
    escapeJson c ++ ['"', '\x7d'] = (escapeJson c ++ ['"']) ++ ['\x7d'] := by
  simp

/-- Every strict prefix of a serialized text frame fails the payload
parser. -/
theorem parseFrameWire_take_text (c : Txt) (n : Nat)
    (h : n < (serializeFrame (Frame.ftext c)).length) :
    parseFrameWire ((serializeFrame (Frame.ftext c)).take n) = none := by
  have hX : serializeFrame (Frame.ftext c) =
      typeHdr ++ (textTail ++ (escapeJson c ++ ['"', '\x7d'])) := by
    simp [serializeFrame, List.append_assoc]
  have hlen : (serializeFrame (Frame.ftext c)).length =
      9 + (17 + ((escapeJson c).length + 2)) := by
    rw [hX]
    simp [typeHdr_len, textTail_len]
  rw [hlen] at h
  rw [hX, List.take_append_eq_append_take, typeHdr_len]
  rcases Nat.lt_or_ge n 9 with h9 | h9
  · rw [Nat.sub_eq_zero_of_le (by omega), List.take_zero, List.append_nil]
    apply parseFrameWire_expects_none
    apply expects_short
    rw [typeHdr_len]
    simp [List.length_take]
    omega
  · rw [List.take_of_length_le (by rw [typeHdr_len]; omega)]
    rw [parseFrameWire_typeHdr_append]
    rw [List.take_append_eq_append_take, textTail_len]
    rcases Nat.lt_or_ge (n - 9) 17 with h17 | h17
    · rw [show n - 9 - 17 = 0 from by omega, List.take_zero, List.append_nil]
      have hc : expects compTail (textTail.take (n - 9)) = none := by
        rcases hm : n - 9 with _ | m'
        · decide
        · rw [show textTail.take (m' + 1) = 't' ::
            (List.take m' ['e', 'x', 't', '"', ',', '"', 'c', 'o', 'n', 't', 'e',
              'n', 't', '"', ':', '"']) from rfl]
          exact expects_mismatch _ _ _ _ (by decide)
      have ht : expects textTail (textTail.take (n - 9)) = none := by
        apply expects_short
        rw [textTail_len]
        simp [List.length_take]
        omega
      have he : expects errTail (textTail.take (n - 9)) = none := by
        rcases hm : n - 9 with _ | m'
        · decide
        · rw [show textTail.take (m' + 1) = 't' ::
            (List.take m' ['e', 'x', 't', '"', ',', '"', 'c', 'o', 'n', 't', 'e',
              'n', 't', '"', ':', '"']) from rfl]
          exact expects_mismatch _ _ _ _ (by decide)
      rw [hc, ht, he]
    · rw [List.take_of_length_le (by rw [textTail_len]; omega)]
      have hc : expects compTail
          (textTail ++ (escapeJson c ++ ['"', '\x7d']).take (n - 9 - 17)) = none := by
        simp [compTail, textTail, expects]
      have ht : expects textTail
          (textTail ++ (escapeJson c ++ ['"', '\x7d']).take (n - 9 - 17)) =
          some ((escapeJson c ++ ['"', '\x7d']).take (n - 9 - 17)) :=
        expects_self_append _ _
      rw [hc, ht]
      show finishContent Frame.ftext
        ((escapeJson c ++ ['"', '\x7d']).take (n - 9 - 17)) = none
      unfold finishContent
      have hqb : (escapeJson c ++ ['"']).length = (escapeJson c).length + 1 := by simp
      rcases Nat.lt_or_ge (n - 9 - 17) ((escapeJson c).length + 1) with hY | hY
      · have hYe : (escapeJson c ++ ['"', '\x7d']).take (n - 9 - 17) =
            (escapeJson c ++ ['"']).take (n - 9 - 17) := by
          rw [escQuoteBrace, List.take_append_eq_append_take, hqb,
            show n - 9 - 17 - ((escapeJson c).length + 1) = 0 from by omega,
            List.take_zero, List.append_nil]
        rw [hYe, parseStrLit_prefix_none c (n - 9 - 17) hY]
      · have heq : n - 9 - 17 = (escapeJson c).length + 1 := by omega
        have hYe : (escapeJson c ++ ['"', '\x7d']).take (n - 9 - 17) =
            escapeJson c ++ ['"'] := by
          rw [heq, escQuoteBrace, List.take_append_eq_append_take, hqb,
            List.take_of_length_le (by rw [hqb]), Nat.sub_self, List.take_zero,
            List.append_nil]
        rw [hYe, parseStrLit_roundtrip]
        simp

/-- Every strict prefix of a serialized error frame fails the payload
parser. -/
theorem parseFrameWire_take_err (c : Txt) (n : Nat)
    (h : n < (serializeFrame (Frame.ferror c)).length) :
    parseFrameWire ((serializeFrame (Frame.ferror c)).take n) = none := by
  have hX : serializeFrame (Frame.ferror c) =
      typeHdr ++ (errTail ++ (escapeJson c ++ ['"', '\x7d'])) := by
    simp [serializeFrame, List.append_assoc]
  have hlen : (serializeFrame (Frame.ferror c)).length =
      9 + (18 + ((escapeJson c).length + 2)) := by
    rw [hX]
    simp [typeHdr_len, errTail_len]
  rw [hlen] at h
  rw [hX, List.take_append_eq_append_take, typeHdr_len]
  rcases Nat.lt_or_ge n 9 with h9 | h9
  · rw [Nat.sub_eq_zero_of_le (by omega), List.take_zero, List.append_nil]
    apply parseFrameWire_expects_none
    apply expects_short
    rw [typeHdr_len]
    simp [List.length_take]
    omega
  · rw [List.take_of_length_le (by rw [typeHdr_len]; omega)]
    rw [parseFrameWire_typeHdr_append]
    rw [List.take_append_eq_append_take, errTail_len]
    rcases Nat.lt_or_ge (n - 9) 18 with h18 | h18
    · rw [show n - 9 - 18 = 0 from by omega, List.take_zero, List.append_nil]
      have hc : expects compTail (errTail.take (n - 9)) = none := by
        rcases hm : n - 9 with _ | m'
        · decide
        · rw [show errTail.take (m' + 1) = 'e' ::
            (List.take m' ['r', 'r', 'o', 'r', '"', ',', '"', 'c', 'o', 'n', 't',
              'e', 'n', 't', '"', ':', '"']) from rfl]
          exact expects_mismatch _ _ _ _ (by decide)
      have ht : expects textTail (errTail.take (n - 9)) = none := by
        rcases hm : n - 9 with _ | m'
        · decide
        · rw [show errTail.take (m' + 1) = 'e' ::
            (List.take m' ['r', 'r', 'o', 'r', '"', ',', '"', 'c', 'o', 'n', 't',
              'e', 'n', 't', '"', ':', '"']) from rfl]
          exact expects_mismatch _ _ _ _ (by decide)
      have he : expects errTail (errTail.take (n - 9)) = none := by
        apply expects_short
        rw [errTail_len]
        simp [List.length_take]
        omega
      rw [hc, ht, he]
    · rw [List.take_of_length_le (by rw [errTail_len]; omega)]
      have hc : expects compTail
          (errTail ++ (escapeJson c ++ ['"', '\x7d']).take (n - 9 - 18)) = none := by
        simp [compTail, errTail, expects]
      have ht : expects textTail
          (errTail ++ (escapeJson c ++ ['"', '\x7d']).take (n - 9 - 18)) = none := by
        simp [textTail, errTail, expects]
      have he : expects errTail
          (errTail ++ (escapeJson c ++ ['"', '\x7d']).take (n - 9 - 18)) =
          some ((escapeJson c ++ ['"', '\x7d']).take (n - 9 - 18)) :=
        expects_self_append _ _
      rw [hc, ht, he]
      show finishContent Frame.ferror
        ((escapeJson c ++ ['"', '\x7d']).take (n - 9 - 18)) = none
      unfold finishContent
      have hqb : (escapeJson c ++ ['"']).length = (escapeJson c).length + 1 := by simp
      rcases Nat.lt_or_ge (n - 9 - 18) ((escapeJson c).length + 1) with hY | hY
      · have hYe : (escapeJson c ++ ['"', '\x7d']).take (n - 9 - 18) =
            (escapeJson c ++ ['"']).take (n - 9 - 18) := by
          rw [escQuoteBrace, List.take_append_eq_append_take, hqb,
            show n - 9 - 18 - ((escapeJson c).length + 1) = 0 from by omega,
            List.take_zero, List.append_nil]
        rw [hYe, parseStrLit_prefix_none c (n - 9 - 18) hY]
      · have heq : n - 9 - 18 = (escapeJson c).length + 1 := by omega
        have hYe : (escapeJson c ++ ['"', '\x7d']).take (n - 9 - 18) =
            escapeJson c ++ ['"'] := by
          rw [heq, escQuoteBrace, List.take_append_eq_append_take, hqb,
            List.take_of_length_le (by rw [hqb]), Nat.sub_self, List.take_zero,
            List.append_nil]
        rw [hYe, parseStrLit_roundtrip]
        simp

/-- Every strict prefix of a serialized frame fails the payload parser. -/
theorem parseFrameWire_take_none (f : Frame) (n : Nat)
    (h : n < (serializeFrame f).length) :
    parseFrameWire ((serializeFrame f).take n) = none := by
  cases f with
  | ftext c => exact parseFrameWire_take_text c n h
  | ferror c => exact parseFrameWire_take_err c n h
  | fcomplete =>
    have hlen : (serializeFrame Frame.fcomplete).length = 19 := by decide
    rw [hlen] at h
    have hball : ∀ m, m < 19 →
        parseFrameWire ((serializeFrame Frame.fcomplete).take m) = none := by decide
    exact hball n h

/-- Every strict (nonempty-offset) suffix of a serialized frame fails
the payload parser. -/
theorem parseFrameWire_drop_none (f : Frame) (j : Nat) (hj : 1 ≤ j) :
    parseFrameWire ((serializeFrame f).drop j) = none := by
  cases f with
  | fcomplete =>
    rcases Nat.lt_or_ge j 20 with h20 | h20
    · have hball : ∀ m, m < 20 → 1 ≤ m →
          parseFrameWire ((serializeFrame Frame.fcomplete).drop m) = none := by decide
      exact hball j h20 hj
    · have hl : (serializeFrame Frame.fcomplete).length ≤ 20 := by decide
      rw [List.drop_eq_nil_of_le (hl.trans h20)]
      decide
  | ftext c =>
    have hX : serializeFrame (Frame.ftext c) =
        (typeHdr ++ textTail) ++ (escapeJson c ++ ['"', '\x7d']) := by
      simp [serializeFrame, List.append_assoc]
    have hHlen : (typeHdr ++ textTail).length = 26 := rfl
    rw [hX, List.drop_append_eq_append_drop, hHlen]
    rcases Nat.lt_or_ge j 26 with h26 | h26
    · rw [show j - 26 = 0 from by omega] at *
      rw [List.drop_zero]
      have hd : (typeHdr ++ textTail).drop j =
          (typeHdr ++ textTail)[j] :: (typeHdr ++ textTail).drop (j + 1) :=
        List.drop_eq_getElem_cons (by rw [hHlen]; omega)
      rw [hd, List.cons_append]
      apply parseFrameWire_head
      have hball : ∀ m, (hm : m < 26) → 1 ≤ m →
          (typeHdr ++ textTail)[m] ≠ '\x7b' := by decide
      exact hball j (by rw [← hHlen] at h26; exact h26) hj
    · rw [List.drop_eq_nil_of_le (by rw [hHlen]; omega), List.nil_append]
      exact parseFrameWire_expects_none _ (expects_typeHdr_drop c (j - 26))
  | ferror c =>
    have hX : serializeFrame (Frame.ferror c) =
        (typeHdr ++ errTail) ++ (escapeJson c ++ ['"', '\x7d']) := by
      simp [serializeFrame, List.append_assoc]
    have hHlen : (typeHdr ++ errTail).length = 27 := rfl
    rw [hX, List.drop_append_eq_append_drop, hHlen]
    rcases Nat.lt_or_ge j 27 with h27 | h27
    · rw [show j - 27 = 0 from by omega] at *
      rw [List.drop_zero]
      have hd : (typeHdr ++ errTail).drop j =
          (typeHdr ++ errTail)[j] :: (typeHdr ++ errTail).drop (j + 1) :=
        List.drop_eq_getElem_cons (by rw [hHlen]; omega)
      rw [hd, List.cons_append]
      apply parseFrameWire_head
      have hball : ∀ m, (hm : m < 27) → 1 ≤ m →
          (typeHdr ++ errTail)[m] ≠ '\x7b' := by decide
      exact hball j (by rw [← hHlen] at h27; exact h27) hj
    · rw [List.drop_eq_nil_of_le (by rw [hHlen]; omega), List.nil_append]
      exact parseFrameWire_expects_none _ (expects_typeHdr_drop c (j - 27))

theorem escChar_no_nl (c : Char) : '\n' ∉ escChar c := by
  unfold escChar
  split_ifs with h1 h2 h3 h4 h5 h6 h7 h8
  · decide
  · decide
  · decide
  · decide
  · decide
  · decide
  · decide
  · intro hmem
    simp only [List.mem_cons, List.not_mem_nil, or_false] at hmem
    rcases hmem with h | h | h | h | h | h
    · exact absurd h (by decide)
    · exact absurd h (by decide)
    · exact absurd h (by decide)
    · exact absurd h (by decide)
    · exact (nibbleChar_props _).2.1 h.symm
    · exact (nibbleChar_props _).2.1 h.symm
  · intro hmem
    simp only [List.mem_cons, List.not_mem_nil, or_false] at hmem
    exact h3 hmem.symm

theorem escapeJson_no_nl (s : Txt) : '\n' ∉ escapeJson s := by
  induction s with
  | nil => simp [escapeJson]
  | cons c cs ih =>
    rw [escapeJson_cons]
    intro hmem
    rcases List.mem_append.mp hmem with h | h
    · exact escChar_no_nl c h
    · exact ih h

theorem serializeFrame_no_nl (f : Frame) : '\n' ∉ serializeFrame f := by
  cases f with
  | fcomplete => decide
  | ftext c =>
    intro hmem
    simp only [serializeFrame, List.append_assoc, List.mem_append] at hmem
    rcases hmem with h | h | h | h
    · exact absurd h (by decide)
    · exact absurd h (by decide)
    · exact escapeJson_no_nl c h
    · exact absurd h (by decide)
  | ferror c =>
    intro hmem
    simp only [serializeFrame, List.append_assoc, List.mem_append] at hmem
    rcases hmem with h | h | h | h
    · exact absurd h (by decide)
    · exact absurd h (by decide)
    · exact escapeJson_no_nl c h
    · exact absurd h (by decide)

theorem dataLineOf_no_nl (f : Frame) : '\n' ∉ dataLineOf f := by
  intro hmem
  rcases List.mem_append.mp hmem with h | h
  · exact absurd h (by decide)
  · exact serializeFrame_no_nl f h

theorem splitNl_no_nl (x : Txt) (h : '\n' ∉ x) : splitNl x = [x] := by
  induction x with
  | nil => rfl
  | cons c r ih =>
    have hc : c ≠ '\n' := fun hcontra => h (by rw [hcontra]; exact List.mem_cons_self _ _)
    have hr : '\n' ∉ r := fun hmem => h (List.mem_cons_of_mem _ hmem)
    rw [splitNl, if_neg hc, ih hr]

theorem splitNl_append_nl (x r : Txt) (h : '\n' ∉ x) :
    splitNl (x ++ '\n' :: r) = x :: splitNl r := by
  induction x with
  | nil => simp [splitNl]
  | cons c xs ih =>
    have hc : c ≠ '\n' := fun hcontra => h (by rw [hcontra]; exact List.mem_cons_self _ _)
    have hx : '\n' ∉ xs := fun hmem => h (List.mem_cons_of_mem _ hmem)
    rw [List.cons_append, splitNl, if_neg hc, ih hx]

theorem procLines_skip (jp : Txt → Option Frame) (l : Txt) (ls : List Txt)
    (hskip : dataMarker.isPrefixOf l = true → jp (l.drop 6) = none) :
    procLines jp (l :: ls) = procLines jp ls := by
  by_cases hp : dataMarker.isPrefixOf l
  · rw [procLines, if_pos hp, hskip hp]
  · rw [procLines, if_neg hp]

theorem procLines_empty_line (jp : Txt → Option Frame) (ls : List Txt) :
    procLines jp ([] :: ls) = procLines jp ls :=
  procLines_skip jp [] ls (by intro h; exact absurd h (by decide))

/-- The callback one dispatched frame fires. -/
theorem procLines_wire (f : Frame) :
    procLines parseFrameWire (splitNl (wireBytes f)) = ([cbOf f], isTerminalFrame f) := by
  have hsplit : splitNl (wireBytes f) = [dataLineOf f, [], []] := by
    rw [wireBytes, show (['\n', '\n'] : Txt) = '\n' :: ['\n'] from rfl,
      splitNl_append_nl _ _ (dataLineOf_no_nl f)]
    rfl
  rw [hsplit]
  have hp : dataMarker.isPrefixOf (dataLineOf f) = true :=
    List.isPrefixOf_iff_prefix.mpr (List.prefix_append _ _)
  have hdrop : (dataLineOf f).drop 6 = serializeFrame f := by
    rw [dataLineOf, show (6 : Nat) = dataMarker.length from rfl, List.drop_left]
  rw [procLines, if_pos hp, hdrop, parseFrameWire_serialize]
  cases f <;> simp [procLines, cbOf, isTerminalFrame, dataMarker]

theorem readChunks_wire_single (f : Frame) :
    readChunks parseFrameWire [wireBytes f] = ([cbOf f], isTerminalFrame f) := by
  cases hf : isTerminalFrame f <;>
    simp [readChunks, procLines_wire, hf]

theorem take_line_skip (f : Frame) (i : Nat) (h2 : i < (dataLineOf f).length) :
    dataMarker.isPrefixOf ((dataLineOf f).take i) = true →
      parseFrameWire (((dataLineOf f).take i).drop 6) = none := by
  intro hp
  have hlen6 : 6 ≤ i := by
    have hle := (List.isPrefixOf_iff_prefix.mp hp).length_le
    simp [List.length_take, show dataMarker.length = 6 from rfl] at hle
    omega
  have hsplit : (dataLineOf f).take i = dataMarker ++ (serializeFrame f).take (i - 6) := by
    rw [dataLineOf, List.take_append_eq_append_take,
      List.take_of_length_le (show dataMarker.length ≤ i from by
        rw [show dataMarker.length = 6 from rfl]; omega),
      show i - dataMarker.length = i - 6 from rfl]
  rw [hsplit, show (6 : Nat) = dataMarker.length from rfl, List.drop_left]
  apply parseFrameWire_take_none
  have hll : (dataLineOf f).length = 6 + (serializeFrame f).length := by
    rw [dataLineOf]
    simp [show dataMarker.length = 6 from rfl]
  have h6' : dataMarker.length = 6 := rfl
  omega

theorem drop_line_skip (f : Frame) (i : Nat) (h1 : 1 ≤ i) :
    dataMarker.isPrefixOf ((dataLineOf f).drop i) = true →
      parseFrameWire (((dataLineOf f).drop i).drop 6) = none := by
  intro hp
  rcases Nat.lt_or_ge i 6 with h6 | h6
  · exfalso
    have hq : (dataLineOf f).drop i = dataMarker.drop i ++ serializeFrame f := by
      rw [dataLineOf, List.drop_append_eq_append_drop,
        show i - dataMarker.length = 0 from by
          rw [show dataMarker.length = 6 from rfl]; omega,
        List.drop_zero]
    rw [hq] at hp
    interval_cases i <;> simp [dataMarker, List.isPrefixOf] at hp
  · have hq : (dataLineOf f).drop i = (serializeFrame f).drop (i - 6) := by
      rw [dataLineOf, List.drop_append_eq_append_drop,
        List.drop_eq_nil_of_le (show dataMarker.length ≤ i from by
          rw [show dataMarker.length = 6 from rfl]; omega),
        List.nil_append, show i - dataMarker.length = i - 6 from rfl]
    rw [hq, List.drop_drop]
    exact parseFrameWire_drop_none f (i - 6 + 6) (by omega)

/-- C10: the consumer keeps no line buffer across reads — a frame whose
wire bytes arrive in one chunk dispatches its callback, but when its
`data: ` line is split across two chunks neither piece dispatches
anything: the pieces either lack the marker or their payload is a strict
prefix/suffix of the serialized frame, which JSON parsing rejects. -/
theorem c10_no_cross_chunk_dispatch :
    (∀ f : Frame, streamChatResponse parseFrameWire
        (FetchResult.stream [wireBytes f] none) = [cbOf f]) ∧
    (∀ (f : Frame) (i : Nat), 1 ≤ i → i < (dataLineOf f).length →
      streamChatResponse parseFrameWire
        (FetchResult.stream [(wireBytes f).take i, (wireBytes f).drop i] none) = []) := by
  constructor
  · intro f
    cases hf : isTerminalFrame f <;>
      simp [streamChatResponse, readChunks_wire_single, hf]
  · intro f i h1 h2
    have h6' : dataMarker.length = 6 := rfl
    have hll : (dataLineOf f).length = 6 + (serializeFrame f).length := by
      rw [dataLineOf]
      simp [h6']
    have htake : (wireBytes f).take i = (dataLineOf f).take i := by
      rw [wireBytes, List.take_append_eq_append_take,
        show i - (dataLineOf f).length = 0 from by omega, List.take_zero,
        List.append_nil]
    have hdrop : (wireBytes f).drop i = (dataLineOf f).drop i ++ ['\n', '\n'] := by
      rw [wireBytes, List.drop_append_eq_append_drop,
        show i - (dataLineOf f).length = 0 from by omega, List.drop_zero]
    have hnl1 : '\n' ∉ (dataLineOf f).take i := fun hmem =>
      dataLineOf_no_nl f (List.take_subset _ _ hmem)
    have hnl2 : '\n' ∉ (dataLineOf f).drop i := fun hmem =>
      dataLineOf_no_nl f (List.drop_subset _ _ hmem)
    have hc1 : procLines parseFrameWire (splitNl ((wireBytes f).take i)) = ([], false) := by
      rw [htake, splitNl_no_nl _ hnl1,
        procLines_skip parseFrameWire _ _ (take_line_skip f i h2)]
      rfl
    have hc2 : procLines parseFrameWire (splitNl ((wireBytes f).drop i)) = ([], false) := by
      rw [hdrop, show (['\n', '\n'] : Txt) = '\n' :: ['\n'] from rfl,
        splitNl_append_nl _ _ hnl2,
        procLines_skip parseFrameWire _ _ (drop_line_skip f i h1)]
      rfl
    simp [streamChatResponse, readChunks, hc1, hc2]

/-- Witness for C10: the frame `{type:text, content:"hi"}`, whole and
split ten bytes in. -/
theorem c10_no_cross_chunk_dispatch_witness :
    streamChatResponse parseFrameWire
        (FetchResult.stream [wireBytes (Frame.ftext ['h', 'i'])] none) =
      [cbOf (Frame.ftext ['h', 'i'])] ∧
    1 ≤ 10 ∧ 10 < (dataLineOf (Frame.ftext ['h', 'i'])).length ∧
    streamChatResponse parseFrameWire
        (FetchResult.stream [(wireBytes (Frame.ftext ['h', 'i'])).take 10,
          (wireBytes (Frame.ftext ['h', 'i'])).drop 10] none) = [] :=
  ⟨c10_no_cross_chunk_dispatch.1 (Frame.ftext ['h', 'i']), by decide, by decide,
    c10_no_cross_chunk_dispatch.2 (Frame.ftext ['h', 'i']) 10 (by decide) (by decide)⟩
